import Mathlib

/-!
Verification development for the douban movie spider
(`douban_movie_spider.py`).

We shallowly embed the extraction–normalization–persistence pipeline:
Python dicts become association lists preserving insertion order, Python
values become an inductive `Value` type, and each method of
`DoubanMovieSpider` that the claims touch becomes an executable Lean
function translated statement by statement from the source.  Fallible
Python code (operations that can raise `TypeError`/`AttributeError`
without a surrounding `except`) is modelled with `Option`: `none` means
the Python call raises.
-/

set_option autoImplicit false

namespace Spider

/-! ## Python values

Python floats in this program are only ever produced by `float(...)` on
decimal strings and integer/float JSON numbers, printed back with
`str`, and compared for equality; no arithmetic is performed on them.
We model a float by its exact value written as `m / 10^e` with the pair
`(m, e)` kept in canonical form (no trailing factor of 10 in `m` while
`e ≠ 0`), which makes equality of the pairs coincide with equality of
the denoted values, mirroring Python float equality, and makes
`float(str(f)) == f` (true in Python for the finite floats arising
here) provable for the model. -/

/-- Canonical form for the decimal-pair float model: while the exponent
is nonzero the mantissa is not divisible by 10 (in particular `0.0` is
`(0, 0)`). -/
def FCanon (p : Int × Nat) : Prop := p.2 ≠ 0 → ¬ (10 : Int) ∣ p.1

instance : DecidablePred FCanon := fun p => by
  unfold FCanon; infer_instance

/-- Model of a Python float: canonical decimal pair `(m, e)` denoting
`m / 10^e`. -/
def PyFloat := { p : Int × Nat // FCanon p }

instance : DecidableEq PyFloat := fun a b =>
  decidable_of_iff (a.val = b.val) Subtype.ext_iff.symm

/-- The float `0.0`. -/
def pfZero : PyFloat := ⟨(0, 0), fun h => absurd rfl h⟩

/-- Strip trailing factors of 10 from a raw decimal pair, producing the
canonical representative of the same value `m / 10^e`. -/
def canonFloat (m : Int) : Nat → PyFloat
  | 0 => ⟨(m, 0), fun h => absurd rfl h⟩
  | e + 1 =>
    if h : (10 : Int) ∣ m then canonFloat (m / 10) e
    else ⟨(m, e + 1), fun _ => h⟩

/-- Model of a Python runtime value as far as this program is concerned:
strings, ints, floats, `None`, JSON-style lists and dicts. -/
inductive Value where
  | vStr : String → Value
  | vInt : Int → Value
  | vFloat : PyFloat → Value
  | vNone : Value
  | vList : List Value → Value
  | vDict : List (String × Value) → Value

namespace Value

/-- Structural decidable equality for `Value` (nested lists handled by
mutual recursion over the list structure). -/
def beq : Value → Value → Bool
  | vStr a, vStr b => a == b
  | vInt a, vInt b => a == b
  | vFloat a, vFloat b => decide (a = b)
  | vNone, vNone => true
  | vList a, vList b => beqList a b
  | vDict a, vDict b => beqDict a b
  | _, _ => false
where
  beqList : List Value → List Value → Bool
    | [], [] => true
    | x :: xs, y :: ys => beq x y && beqList xs ys
    | _, _ => false
  beqDict : List (String × Value) → List (String × Value) → Bool
    | [], [] => true
    | (k, x) :: xs, (k', y) :: ys => k == k' && beq x y && beqDict xs ys
    | _, _ => false

mutual
theorem beq_eq : ∀ a b : Value, beq a b = true → a = b
  | vStr _, vStr _, h => by simpa [beq] using congrArg vStr (by exact of_decide_eq_true (by simpa [beq, BEq.beq] using h))
  | vInt _, vInt _, h => by
      have := of_decide_eq_true (by simpa [beq, BEq.beq] using h)
      exact congrArg vInt this
  | vFloat _, vFloat _, h => by
      have := of_decide_eq_true (by simpa [beq] using h)
      exact congrArg vFloat this
  | vNone, vNone, _ => rfl
  | vList a, vList b, h => congrArg vList (beqList_eq a b (by simpa [beq] using h))
  | vDict a, vDict b, h => congrArg vDict (beqDict_eq a b (by simpa [beq] using h))

theorem beqList_eq : ∀ a b : List Value, beq.beqList a b = true → a = b
  | [], [], _ => rfl
  | x :: xs, y :: ys, h => by
      have h' := h
      simp only [beq.beqList, Bool.and_eq_true] at h'
      exact by rw [beq_eq x y h'.1, beqList_eq xs ys h'.2]

theorem beqDict_eq : ∀ a b : List (String × Value), beq.beqDict a b = true → a = b
  | [], [], _ => rfl
  | (k, x) :: xs, (k', y) :: ys, h => by
      have h' := h
      simp only [beq.beqDict, Bool.and_eq_true] at h'
      have hk : k = k' := by exact of_decide_eq_true (by simpa [BEq.beq] using h'.1.1)
      exact by rw [hk, beq_eq x y h'.1.2, beqDict_eq xs ys h'.2]
end

mutual
theorem beq_refl : ∀ a : Value, beq a a = true
  | vStr _ => by simp [beq]
  | vInt _ => by simp [beq]
  | vFloat _ => by simp [beq]
  | vNone => by simp [beq]
  | vList a => by simpa [beq] using beqList_refl a
  | vDict a => by simpa [beq] using beqDict_refl a

theorem beqList_refl : ∀ a : List Value, beq.beqList a a = true
  | [] => rfl
  | x :: xs => by simp [beq.beqList, beq_refl x, beqList_refl xs]

theorem beqDict_refl : ∀ a : List (String × Value), beq.beqDict a a = true
  | [] => rfl
  | (_, x) :: xs => by simp [beq.beqDict, beq_refl x, beqDict_refl xs]
end

instance : DecidableEq Value := fun a b =>
  if h : beq a b = true then .isTrue (beq_eq a b h)
  else .isFalse (fun he => h (he ▸ beq_refl a))

end Value

open Value

/-- A Python dict, as an insertion-ordered association list.  Faithful
dicts have pairwise distinct keys (`RecordWF`). -/
abbrev Record := List (String × Value)

/-- Keys pairwise distinct: the well-formedness invariant every real
Python dict satisfies. -/
def RecordWF (m : Record) : Prop := (m.map Prod.fst).Nodup

instance : DecidablePred RecordWF := fun m => by unfold RecordWF; infer_instance

namespace Record

/-- `m[k]` / `m.get(k)`: the value at the first occurrence of `k`. -/
def get? (m : Record) (k : String) : Option Value :=
  match m with
  | [] => none
  | kv :: m' => if kv.1 = k then some kv.2 else get? m' k

/-- `k in m`. -/
def hasKey (m : Record) (k : String) : Bool := (m.get? k).isSome

/-- `m[k] = v`: update the existing entry in place, else append. -/
def set (m : Record) (k : String) (v : Value) : Record :=
  if m.hasKey k then
    m.map (fun kv => if kv.1 = k then (k, v) else kv)
  else m ++ [(k, v)]

/-- `del m[k]` (also used for the `if k in m: del m[k]` idiom; deleting
an absent key is the identity here, matching that idiom). -/
def del (m : Record) (k : String) : Record :=
  m.filter (fun kv => kv.1 ≠ k)

end Record

/-- Python truthiness for the modelled values. -/
def truthy : Value → Bool
  | vStr s => s ≠ ""
  | vInt n => n ≠ 0
  | vFloat p => p.val.1 ≠ 0
  | vNone => false
  | vList l => !l.isEmpty
  | vDict l => !l.isEmpty

/-- Truthiness of `m.get(k)` with the `None` default: absent keys are
falsy. -/
def truthyAt (m : Record) (k : String) : Bool :=
  match m.get? k with
  | some v => truthy v
  | none => false

/-! ## String primitives (Python `str` methods, over `List Char`) -/

/-- `str.strip()` on the character list (ASCII whitespace; Python also
strips a few more unicode spaces, which never occur here). -/
def trimChars (l : List Char) : List Char :=
  ((l.dropWhile Char.isWhitespace).reverse.dropWhile Char.isWhitespace).reverse

/-- `s.strip()`. -/
def pyStrip (s : String) : String := String.mk (trimChars s.data)

/-- `s.split(sep)` for a single-character separator, keeping empty
parts, as Python does. -/
def splitChar (sep : Char) : List Char → List (List Char)
  | [] => [[]]
  | c :: cs =>
    if c = sep then [] :: splitChar sep cs
    else
      match splitChar sep cs with
      | g :: gs => (c :: g) :: gs
      | [] => [[c]]

/-- The `[x.strip() for x in s.split(',') if x.strip()]` idiom used all
over `normalize_movie_data`. -/
def splitTrimFilter (s : String) : List String :=
  (((splitChar ',' s.data).map trimChars).filter (fun l => l ≠ [])).map String.mk

/-- `', '.join(l)`. -/
def joinChars : List (List Char) → List Char
  | [] => []
  | [x] => x
  | x :: xs => x ++ ',' :: ' ' :: joinChars xs

def joinCommaSpace (l : List String) : String := String.mk (joinChars (l.map String.data))

/-- `needle in hay` for strings: contiguous-substring test. -/
def containsSeq (pat : List Char) : List Char → Bool
  | [] => pat.isEmpty
  | c :: cs => pat.isPrefixOf (c :: cs) || containsSeq pat cs

/-- `needle in hay` on `String`s. -/
def strContains (hay pat : String) : Bool := containsSeq pat.data hay.data

/-! ## Digits, ints and floats -/

/-- Numeric value of a decimal digit character. -/
def digitVal (c : Char) : Nat := c.toNat - 48

/-- The character for a decimal digit. -/
def digitChar (d : Nat) : Char := Char.ofNat (48 + d)

/-- Read a big-endian digit list as a number (the value of a digit
string in usual reading order). -/
def ofDigitsBE (ds : List Nat) : Nat := ds.foldl (fun a d => 10 * a + d) 0

/-- Big-endian decimal digits, fuelled for structural recursion (the
fuel `n` itself always suffices). -/
def digitsBEAux : Nat → Nat → List Nat
  | 0, _ => []
  | fuel + 1, n => if n = 0 then [] else digitsBEAux fuel (n / 10) ++ [n % 10]

/-- Big-endian decimal digits of `n` (empty for 0). -/
def digitsBE (n : Nat) : List Nat := digitsBEAux n n

/-- Decimal digit characters of `n` (`"0"` for 0), as `str(n)` prints a
nonnegative int. -/
def natChars (n : Nat) : List Char :=
  (if digitsBE n = [] then [0] else digitsBE n).map digitChar

/-- `str(n)` for a Python int. -/
def intRepr (n : Int) : String :=
  String.mk ((if n < 0 then ['-'] else []) ++ natChars n.natAbs)

/-- Longest digit prefix of a character list, with the rest. -/
def takeDigits : List Char → List Nat × List Char
  | [] => ([], [])
  | c :: cs =>
    if c.isDigit then
      let (ds, r) := takeDigits cs
      (digitVal c :: ds, r)
    else ([], c :: cs)

/-- `int(s)` for a string: optional surrounding whitespace, optional
sign, then a nonempty run of digits (Python's underscore separators are
not modelled; they never occur in this program's inputs). `none` means
`int(...)` raises `ValueError`. -/
def parseInt (s : String) : Option Int :=
  let l := trimChars s.data
  let (sign, l') : Int × List Char :=
    match l with
    | [] => (1, [])
    | c :: r => if c = '-' then (-1, r) else if c = '+' then (1, r) else (1, c :: r)
  let (ds, rest) := takeDigits l'
  if ds = [] ∨ rest ≠ [] then none else some (sign * (ofDigitsBE ds : Int))

/-- Core of `float(s)`: `[sign] (digits [. digits] | . digits) [exp]`,
returning the raw decimal pair before canonicalization.  (Python also
accepts `inf`/`nan` and underscore separators, which never reach
`float` in this program.) -/
def parseFloatCore (l : List Char) : Option (Int × Nat) :=
  let sl : Int × List Char :=
    match l with
    | [] => (1, [])
    | c :: r => if c = '-' then (-1, r) else if c = '+' then (1, r) else (1, c :: r)
  let td := takeDigits sl.2
  let fracExp : Option (Int × Nat × List Char) :=
    match td.2 with
    | '.' :: r2 =>
      let tf := takeDigits r2
      if td.1 = [] ∧ tf.1 = [] then none
      else some (sl.1 * (ofDigitsBE (td.1 ++ tf.1) : Int), tf.1.length, tf.2)
    | _ => if td.1 = [] then none else some (sl.1 * (ofDigitsBE td.1 : Int), 0, td.2)
  match fracExp with
  | none => none
  | some me =>
    match me.2.2 with
    | [] => some (me.1, me.2.1)
    | c :: r1 =>
      if c = 'e' ∨ c = 'E' then
        let se : Int × List Char :=
          match r1 with
          | [] => (1, [])
          | c' :: r' =>
            if c' = '-' then (-1, r') else if c' = '+' then (1, r') else (1, c' :: r')
        let te := takeDigits se.2
        if te.1 = [] ∨ te.2 ≠ [] then none
        else
          let ex : Int := se.1 * (ofDigitsBE te.1 : Int) - (me.2.1 : Int)
          if 0 ≤ ex then some (me.1 * 10 ^ ex.toNat, 0) else some (me.1, (-ex).toNat)
      else none

/-- `float(s)` on a string (strips surrounding whitespace like Python).
`none` means `ValueError`. -/
def parseFloat (s : String) : Option PyFloat :=
  (parseFloatCore (trimChars s.data)).map (fun p => canonFloat p.1 p.2)

/-- `str(f)` for the float model: sign, integer digits, `'.'`, fraction
digits, printing `X.0` for integral values as Python repr does. -/
def floatRepr (p : PyFloat) : String :=
  let m := p.val.1
  let e := p.val.2
  let ds := digitsBE m.natAbs
  let pad := List.replicate (e + 1 - ds.length) 0 ++ ds
  let k := pad.length - e
  String.mk
    ((if m < 0 then ['-'] else []) ++ (pad.take k).map digitChar ++ ['.'] ++
      (if e = 0 then ['0'] else (pad.drop k).map digitChar))

/-- `str(v)`: only strings, ints and floats ever reach `str` with their
text mattering in this program; containers only need to print as
something non-numeric and brace/bracket-delimited, so their contents
are abbreviated. -/
def pyStr : Value → String
  | vStr s => s
  | vInt n => intRepr n
  | vFloat p => floatRepr p
  | vNone => "None"
  | vList _ => "[...]"
  | vDict _ => "\x7b...\x7d"

/-- `float(v)` on a non-string value: ints and floats convert, `None`,
lists and dicts raise `TypeError` (`none`); strings parse as
`parseFloat`. -/
def pyFloatFn : Value → Option PyFloat
  | vStr s => parseFloat s
  | vInt n => some (canonFloat n 0)
  | vFloat p => some p
  | _ => none

/-- `int(v)`: ints stay, floats truncate toward zero, strings parse
strictly; anything else raises. -/
def pyIntFn : Value → Option Int
  | vInt n => some n
  | vFloat p => some (p.val.1 / (10 : Int) ^ p.val.2)
  | vStr s => parseInt s
  | _ => none

/-- `text.replace(',', '').replace('，', '')` from the people-count
digit extraction. -/
def removeCommas (l : List Char) : List Char :=
  l.filter (fun c => c ≠ ',' ∧ c ≠ '，')

theorem dropWhile_length_le (p : Char → Bool) :
    ∀ l : List Char, (l.dropWhile p).length ≤ l.length := by
  intro l
  induction l with
  | nil => simp
  | cons c cs ih =>
    by_cases h : p c
    · simpa [List.dropWhile, h] using Nat.le_succ_of_le ih
    · simp [List.dropWhile, h]

/-- `re.findall(r'\d+', s)`: the maximal digit runs of `s`, in order. -/
def digitRuns : List Char → List (List Char)
  | [] => []
  | c :: cs =>
    if c.isDigit then
      (c :: cs.takeWhile Char.isDigit) :: digitRuns (cs.dropWhile Char.isDigit)
    else digitRuns cs
  termination_by l => l.length
  decreasing_by
    · simp only [List.length_cons]
      exact Nat.lt_succ_of_le (dropWhile_length_le _ _)
    · simp

/-! ## Regex fragments

The three `re.search` patterns of `normalize_movie_data`
(`/subject/(\d+)/`, `(\d{4}-\d{1,2}-\d{1,2})`, `(\d{4}-\d{1,2})`,
`(\d{4})`) are modelled as positional matchers scanned left to right,
with the bounded greedy `\d{1,2}` backtracking exactly as the `re`
engine does. -/

/-- Try the positional matcher at each position left to right and
return the first match (what `re.search` returns). -/
def scanFirst (f : List Char → Option (List Char)) : List Char → Option (List Char)
  | [] => f []
  | l@(_ :: cs) =>
    match f l with
    | some r => some r
    | none => scanFirst f cs

/-- Match `\d{4}` at the head. -/
def match4D : List Char → Option (List Char × List Char)
  | a :: b :: c :: d :: rest =>
    if a.isDigit ∧ b.isDigit ∧ c.isDigit ∧ d.isDigit then some ([a, b, c, d], rest)
    else none
  | _ => none

/-- Match greedy `\d{1,2}` that must be followed by `-` (consuming the
dash); two digits are preferred, and the one-digit backtrack can only
succeed when the second character is the dash itself. -/
def matchD12Dash (l : List Char) : Option (List Char × List Char) :=
  match l with
  | a :: b :: rest =>
    if a.isDigit then
      if b.isDigit then
        match rest with
        | '-' :: rest2 => some ([a, b], rest2)
        | _ => none
      else if b = '-' then some ([a], rest)
      else none
    else none
  | _ => none

/-- Match greedy `\d{1,2}` at the end of the pattern (no following
requirement). -/
def matchD12End (l : List Char) : Option (List Char × List Char) :=
  match l with
  | a :: b :: rest =>
    if a.isDigit then
      if b.isDigit then some ([a, b], rest) else some ([a], b :: rest)
    else none
  | [a] => if a.isDigit then some ([a], []) else none
  | [] => none

/-- `(\d{4}-\d{1,2}-\d{1,2})` at the head. -/
def matchYMDAt (l : List Char) : Option (List Char) :=
  match match4D l with
  | some (y, r1) =>
    match r1 with
    | '-' :: r2 =>
      match matchD12Dash r2 with
      | some (mo, r3) =>
        match matchD12End r3 with
        | some (d, _) => some (y ++ ['-'] ++ mo ++ ['-'] ++ d)
        | none => none
      | none => none
    | _ => none
  | none => none

/-- `(\d{4}-\d{1,2})` at the head. -/
def matchYMAt (l : List Char) : Option (List Char) :=
  match match4D l with
  | some (y, r1) =>
    match r1 with
    | '-' :: r2 => (matchD12End r2).map (fun p => y ++ ['-'] ++ p.1)
    | _ => none
  | none => none

/-- `(\d{4})` at the head. -/
def matchYAt (l : List Char) : Option (List Char) :=
  (match4D l).map (·.1)

/-- The full-date / year-month / year cascade of step 12 of
`normalize_movie_data`, applied to one release-date entry. -/
def extractDate (s : String) : Option String :=
  match scanFirst matchYMDAt s.data with
  | some d => some (String.mk d)
  | none =>
    match scanFirst matchYMAt s.data with
    | some d => some (String.mk d)
    | none => (scanFirst matchYAt s.data).map String.mk

/-- `/subject/(\d+)/` at the head: the literal prefix, a nonempty
maximal digit run, then a slash. -/
def subjectAt (l : List Char) : Option (List Char) :=
  if "/subject/".data.isPrefixOf l then
    let rest := l.drop 9
    let run := rest.takeWhile Char.isDigit
    if run = [] then none
    else
      match rest.drop run.length with
      | '/' :: _ => some run
      | _ => none
  else none

/-- `re.search(r'/subject/(\d+)/', link)`, group 1. -/
def subjectIdScan (l : List Char) : Option (List Char) := scanFirst subjectAt l

/-! ## `normalize_movie_data`

Each numbered comment block of the Python method becomes one step
function; `none` models an uncaught exception (a string method or `in`
on a non-string, non-container value). -/

/-- Step 3: cap `actors` at the first five comma-separated names. -/
def stepActors (m : Record) : Option Record :=
  match m.get? "actors" with
  | some v =>
    if truthy v then
      match v with
      | vStr s =>
        if (splitTrimFilter s).isEmpty then some m
        else some (m.set "actors" (vStr (joinCommaSpace ((splitTrimFilter s).take 5))))
      | _ => none
    else some m
  | none => some m

/-- Step 4: keep only the first director. -/
def stepDirectors (m : Record) : Option Record :=
  match m.get? "directors" with
  | some v =>
    if truthy v then
      match v with
      | vStr s =>
        match splitTrimFilter s with
        | d :: _ => some (m.set "directors" (vStr d))
        | [] => some m
      | _ => none
    else some m
  | none => some m

/-- Step 5: keep only the first screenwriter. -/
def stepScreenwriters (m : Record) : Option Record :=
  match m.get? "screenwriters" with
  | some v =>
    if truthy v then
      match v with
      | vStr s =>
        match splitTrimFilter s with
        | d :: _ => some (m.set "screenwriters" (vStr d))
        | [] => some m
      | _ => none
    else some m
  | none => some m

/-- Step 9.5: coerce a present truthy `rating` through
`float(str(...).strip())` with `0.0` on failure, default an absent
`rating` to `0.0`, and leave a present falsy `rating` untouched. -/
def stepRating (m : Record) : Record :=
  match m.get? "rating" with
  | some v =>
    if truthy v then
      if pyStrip (pyStr v) = "" then m.set "rating" (vFloat pfZero)
      else m.set "rating" (vFloat ((parseFloat (pyStrip (pyStr v))).getD pfZero))
    else m
  | none => m.set "rating" (vFloat pfZero)

/-- The `elif` chain of step 10 when `people` is absent or falsy:
default or re-parse `total_ratings`. -/
def totalRatingsElif (m : Record) : Record :=
  match m.get? "total_ratings" with
  | none => m.set "total_ratings" (vInt 0)
  | some (vStr ts) =>
    m.set "total_ratings" (vInt
      (match digitRuns (removeCommas ts.data) with
       | d :: _ => (ofDigitsBE (d.map digitVal) : Int)
       | [] => 0))
  | some _ => m

/-- Step 10: turn a truthy `people` text into the integer
`total_ratings` (first digit run after dropping both comma kinds) and
drop `people`; otherwise run the `total_ratings` `elif` chain. -/
def stepPeople (m : Record) : Option Record :=
  match m.get? "people" with
  | some pv =>
    if truthy pv then
      match pv with
      | vStr s =>
        some ((m.set "total_ratings" (vInt
          (match digitRuns (removeCommas s.data) with
           | d :: _ => (ofDigitsBE (d.map digitVal) : Int)
           | [] => 0))).del "people")
      | _ => none
    else some (totalRatingsElif m)
  | none => some (totalRatingsElif m)

/-- The `if` branch of step 10.5: derive `movie_id` from the
`/subject/<digits>/` segment of `link`, defaulting to `0`. -/
def deriveMovieIdFromLink (m : Record) : Option Record :=
  match m.get? "link" with
  | some lv =>
    if truthy lv then
      match lv with
      | vStr link =>
        match subjectIdScan link.data with
        | some ds => some (m.set "movie_id" (vInt (ofDigitsBE (ds.map digitVal) : Int)))
        | none => some (m.set "movie_id" (vInt 0))
      | _ => none
    else some (m.set "movie_id" (vInt 0))
  | none => some (m.set "movie_id" (vInt 0))

/-- Step 10.5: derive `movie_id` when absent or falsy, else coerce the
existing value to an int (strings parse, failures and other types
become `0`, ints stay). -/
def stepMovieId (m : Record) : Option Record :=
  if ¬ truthyAt m "movie_id" then deriveMovieIdFromLink m
  else
    match m.get? "movie_id" with
    | some (vStr s) =>
      if pyStrip s = "" then some (m.set "movie_id" (vInt 0))
      else some (m.set "movie_id" (vInt ((parseInt s).getD 0)))
    | some (vInt _) => some m
    | _ => some (m.set "movie_id" (vInt 0))

/-- The step-11 mis-parse test
`'导演' in v or '主演' in v or len(v) > 200`, with `in`/`len` following
Python semantics per value shape (`none` = `TypeError`). -/
def regionBad : Value → Option Bool
  | vStr s => some (strContains s "导演" || strContains s "主演" || decide (s.length > 200))
  | vList l => some (l.contains (vStr "导演") || l.contains (vStr "主演") ||
      decide (l.length > 200))
  | vDict d => some (d.any (fun kv => kv.1 = "导演") || d.any (fun kv => kv.1 = "主演") ||
      decide (d.length > 200))
  | _ => none

/-- Step 11 for one of `countries`/`languages`: clear the field when it
contains the director/actor markers or exceeds 200 characters. -/
def cleanRegionField (key : String) (m : Record) : Option Record :=
  match m.get? key with
  | some v =>
    if truthy v then
      match regionBad v with
      | some true => some (m.set key (vStr ""))
      | some false => some m
      | none => none
    else some m
  | none => some m

/-- The dead `elif 'info' in movie ...` fallback of step 12 (`info` is
always deleted by step 9, but the code is embedded faithfully). -/
def infoYearBranch (m : Record) : Option Record :=
  match m.get? "info" with
  | some iv =>
    if truthy iv then
      match iv with
      | vStr s =>
        match scanFirst matchYAt s.data with
        | some yds =>
          if 1900 ≤ (ofDigitsBE (yds.map digitVal) : Int) ∧
              (ofDigitsBE (yds.map digitVal) : Int) ≤ 2100 then
            some (m.set "release_date" (vStr (String.mk yds)))
          else some m
        | none => some m
      | _ => none
    else some m
  | none => some m

/-- The `elif` branch of step 12: when `release_date` is absent or
falsy, fall back to a legacy `release_year` (copied verbatim) or to the
`info` year. -/
def releaseElse (m : Record) : Option Record :=
  if ¬ truthyAt m "release_date" then
    match m.get? "release_year" with
    | some ry =>
      if truthy ry then some ((m.set "release_date" ry).del "release_year")
      else infoYearBranch m
    | none => infoYearBranch m
  else some m

/-- Step 12 head: collapse a truthy `release_dates` list to the
extracted date of its first trimmed entry and delete the source
field. -/
def stepRelease (m : Record) : Option Record :=
  match m.get? "release_dates" with
  | some rdv =>
    if truthy rdv then
      match rdv with
      | vStr s =>
        some ((match splitTrimFilter s with
          | d0 :: _ =>
            match extractDate d0 with
            | some d => m.set "release_date" (vStr d)
            | none => m
          | [] => m).del "release_dates")
      | _ => none
    else releaseElse m
  | none => releaseElse m

/-- Step 12 tail: stringify an integer `release_date` and drop any
remaining `release_year`. -/
def stepReleaseFinal (m : Record) : Record :=
  (match m.get? "release_date" with
   | some (vInt n) => m.set "release_date" (vStr (intRepr n))
   | _ => m).del "release_year"

/-- `DoubanMovieSpider.FIELD_ORDER`. -/
def FIELD_ORDER : List String :=
  ["movie_id", "title", "rating", "total_ratings", "directors", "actors",
   "screenwriters", "release_date", "genres", "countries", "languages", "runtime",
   "summary", "tags", "imdb", "link", "category", "box_office", "poster"]

/-- Final reordering: `FIELD_ORDER` fields first (those present), then
the remaining fields in encounter order. -/
def reorder (m : Record) : Record :=
  FIELD_ORDER.filterMap (fun f => (m.get? f).map (fun v => (f, v))) ++
    m.filter (fun kv => !FIELD_ORDER.contains kv.1)

/-- A sequence of `if k in movie: del movie[k]` statements. -/
def delKeys (ks : List String) (m : Record) : Record := ks.foldl Record.del m

/-- Steps 1–2: drop `rank` and `other_titles`. -/
def preDels (m : Record) : Record := delKeys ["rank", "other_titles"] m

/-- Steps 6–9.3: drop `also_known_as`, the five rating-distribution
buckets, `quote`, `info`, `category` and `rating_detail`. -/
def midDels (m : Record) : Record :=
  delKeys ["also_known_as", "rating_5star", "rating_4star", "rating_3star",
    "rating_2star", "rating_1star", "quote", "info", "category", "rating_detail"] m

/-- `normalize_movie_data`, steps 1–12 plus the final reorder.  `none`
models an uncaught exception. -/
def normalize (m0 : Record) : Option Record := do
  let m2 ← stepActors (preDels m0)
  let m3 ← stepDirectors m2
  let m4 ← stepScreenwriters m3
  let m7 ← stepPeople (stepRating (midDels m4))
  let m8 ← stepMovieId m7
  let m9 ← cleanRegionField "countries" m8
  let m10 ← cleanRegionField "languages" m9
  let m11 ← stepRelease m10
  pure (reorder (stepReleaseFinal m11))

/-! ## `_merge_detail_info` -/

/-- `d.get(k)` on a nested dict value. -/
def dictGet? (d : List (String × Value)) (k : String) : Option Value :=
  Record.get? d k

/-- The twelve enrichable fields, in the order the method assigns
them. -/
def MERGE_FIELDS : List String :=
  ["poster", "directors", "actors", "screenwriters", "genres", "countries",
   "languages", "release_dates", "runtime", "summary", "tags", "imdb"]

/-- The twelve `if detail_info.get(f): movie[f] = detail_info[f]`
assignments. -/
def mergeFields (movie detail : Record) : Record :=
  MERGE_FIELDS.foldl
    (fun m f =>
      match detail.get? f with
      | some v => if truthy v then m.set f v else m
      | none => m)
    movie

/-- The `rating_detail` block of `_merge_detail_info`: a truthy
`average` overwrites `rating` (string averages fall back to the prior
rating on parse failure; other types go through `float`, which raises
on non-numbers), and a truthy count overwrites `total_ratings`
verbatim. -/
def mergeRating (movie detail : Record) : Option Record :=
  match detail.get? "rating_detail" with
  | some rdv =>
    if truthy rdv then
      match rdv with
      | vDict rd => do
        let m1 ←
          match dictGet? rd "average" with
          | some av =>
            if truthy av then
              match av with
              | vStr s =>
                match parseFloat s with
                | some q => some (movie.set "rating" (vFloat q))
                | none =>
                  some (movie.set "rating" ((movie.get? "rating").getD (vFloat pfZero)))
              | _ =>
                match pyFloatFn av with
                | some q => some (movie.set "rating" (vFloat q))
                | none => none
            else some movie
          | none => some movie
        match dictGet? rd "total_ratings" with
        | some cv => if truthy cv then some (m1.set "total_ratings" cv) else some m1
        | none => some m1
      | _ => none
    else some movie
  | none => some movie

/-- `_merge_detail_info(movie, detail_info)`.  `none` models an
uncaught exception (attribute access or `float` on an unsuitable
value). -/
def mergeDetail (movie detail : Record) : Option Record :=
  if detail.isEmpty then some movie
  else mergeRating (mergeFields movie detail) detail

/-! ## `save_movie_line`: the aggregate-array (JSON) and tabular (CSV)
stores -/

/-- What the JSON aggregate file holds before a write. -/
inductive JsonFileState where
  | absent
  | undecodable
  | decoded (v : Value)

/-- The JSON-array block of `save_movie_line`, given the (already
normalized) record: append to a decoded array, wrap a decoded
non-array together with the record, and rewrite an undecodable or
absent file as the one-element array. -/
def saveJsonArray : JsonFileState → Record → Value
  | .absent, movie => vList [vDict movie]
  | .undecodable, movie => vList [vDict movie]
  | .decoded (vList xs), movie => vList (xs ++ [vDict movie])
  | .decoded v, movie => vList [v, vDict movie]

/-- `save_movie_line` restricted to its JSON aggregate target (the
method normalizes first). -/
def saveMovieLineJson (file : JsonFileState) (movie : Record) : Option Value :=
  (normalize movie).map (saveJsonArray file)

/-- Header derived on a first write: `FIELD_ORDER` fields present in
the record, then the record's remaining fields. -/
def csvHeaderFor (movie : Record) : List String :=
  FIELD_ORDER.filter (fun f => movie.hasKey f) ++
    (movie.map (·.1)).filter (fun k => !FIELD_ORDER.contains k)

/-- One CSV cell: missing fields become the empty cell (`DictWriter`
restval), and the `csv` module writes `None` as an empty cell too. -/
def csvCell : Option Value → String
  | none => ""
  | some vNone => ""
  | some v => pyStr v

/-- The CSV block of `save_movie_line` on the (already normalized)
record: a fresh file gets a derived header plus the row; an existing
file has its first row read back as the header, which is reused
unchanged, with the row built only from header fields. -/
def saveCsv : Option (List (List String)) → Record → List (List String)
  | none, movie =>
    let h := csvHeaderFor movie
    [h, h.map (fun f => csvCell (movie.get? f))]
  | some rows, movie =>
    let existing := rows.headD []
    let fieldnames := if existing.isEmpty then csvHeaderFor movie else existing
    rows ++ [fieldnames.map (fun f => csvCell (movie.get? f))]

/-- `save_movie_line` restricted to its CSV target (the method
normalizes first). -/
def saveMovieLineCsv (file : Option (List (List String))) (movie : Record) :
    Option (List (List String)) :=
  (normalize movie).map (saveCsv file)

/-! ## The crawl drivers

The fetch collaborator and the HTML/JSON item extractors are external
to the dedup/pagination logic under verification: a page fetch is
modelled as `Nat → Option (List _)` (`none` = the fetch raised after
its retries), `crawl_top250` pages carry items already put through
`parse_movie_item` (`none` = the parse returned `None`), and the API
drivers carry the raw JSON item dicts.  Detail fetching is modelled
off (`fetch_detail=False`) and immediate saving on
(`save_immediately=True`, the `main()` configuration). -/

/-- `movie.get('title', '').strip()`. -/
def titleKey (m : Record) : Option String :=
  match m.get? "title" with
  | some (vStr s) => some (pyStrip s)
  | some _ => none
  | none => some ""

/-- The shared dedup-key expression of the three drivers:
`movie.get('link', '').strip() if movie.get('link') else
movie.get('title', '').strip()`. -/
def movieKey (m : Record) : Option String :=
  match m.get? "link" with
  | some lv =>
    if truthy lv then
      match lv with
      | vStr s => some (pyStrip s)
      | _ => none
    else titleKey m
  | none => titleKey m

/-- Session state threaded through a driver: the shared dedup set (as
a membership list), the accumulated result list, and the records
handed to `save_movie_line` (post its internal re-normalization). -/
structure DriverState where
  existing : List String
  movies : List Record
  saved : List Record

/-- One `crawl_top250` item: dedup-check the parsed record, and on
acceptance add the key, normalize, persist and append.  The flag is
`false` when an exception escapes to the page handler; the key
insertion, a set mutation, survives it. -/
def top250Item (st : DriverState) (it : Option Record) : DriverState × Bool :=
  match it with
  | none => (st, true)
  | some movie =>
    if movie.isEmpty then (st, true)
    else
      match movieKey movie with
      | none => (st, false)
      | some key =>
        if key ≠ "" ∧ ¬ st.existing.contains key then
          let st1 := { st with existing := key :: st.existing }
          match normalize movie with
          | none => (st1, false)
          | some m1 =>
            match normalize m1 with
            | none => (st1, false)
            | some m2 =>
              ({ st1 with movies := st1.movies ++ [m1], saved := st1.saved ++ [m2] },
                true)
        else (st, true)

/-- The `crawl_top250` item loop; the whole page body sits in one
`try`, so the first escaping exception abandons the rest of the
page. -/
def top250Items (st : DriverState) : List (Option Record) → DriverState × Bool
  | [] => (st, true)
  | it :: rest =>
    let (st', ok) := top250Item st it
    if ok then top250Items st' rest else (st', false)

/-- The `crawl_top250` page loop: a failed fetch is caught and the loop
continues with the next page; a page with no items breaks. -/
def top250Go (pages : Nat → Option (List (Option Record))) :
    DriverState → Nat → Nat → DriverState
  | st, _, 0 => st
  | st, p, fuel + 1 =>
    match pages p with
    | none => top250Go pages st (p + 1) fuel
    | some items =>
      if items.isEmpty then st
      else top250Go pages (top250Items st items).1 (p + 1) fuel

/-- `crawl_top250`. -/
def crawlTop250 (maxPages : Nat) (pages : Nat → Option (List (Option Record)))
    (existing0 : List String) : DriverState :=
  top250Go pages ⟨existing0, [], []⟩ 0 maxPages

/-- `s.split(sep)` for a multi-character separator (nonempty by
construction: head and tail are passed separately). -/
def splitSeq (c0 : Char) (crest : List Char) : List Char → List (List Char)
  | [] => [[]]
  | c :: cs =>
    if (c0 :: crest).isPrefixOf (c :: cs) then
      [] :: splitSeq c0 crest (cs.drop crest.length)
    else
      match splitSeq c0 crest cs with
      | g :: gs => (c :: g) :: gs
      | [] => [[c]]
  termination_by l => l.length
  decreasing_by
    · simp only [List.length_cons]
      exact Nat.lt_succ_of_le (Nat.le_trans (List.length_drop _ _ ▸ Nat.sub_le _ _)
        (Nat.le_refl _))
    · simp

/-- `.rstrip('/')`. -/
def rstripSlash (l : List Char) : List Char :=
  (l.reverse.dropWhile (fun c => c = '/')).reverse

/-- The item-to-record block of `_crawl_movies_from_api` (build link
from `id`/`uri`, coerce the id, pull rating/count/poster).  `none`
covers both the explicit `continue`s and the per-item `except`: the
item contributes nothing. -/
def apiBuildMovie (item : Record) : Option Record := do
  let mid0 := (item.get? "id").getD (vStr "")
  let uri := (item.get? "uri").getD (vStr "")
  let mid ←
    if truthy uri then
      match uri with
      | vStr u =>
        if strContains u "movie/" then
          some (vStr (String.mk ((splitSeq 'm' "ovie/".data u.data).getLastD [])))
        else some mid0
      | _ => none
    else some mid0
  if truthy mid then
    let link := "https://movie.douban.com/subject/" ++ pyStr mid ++ "/"
    let nid ← pyIntFn mid
    let title := (item.get? "title").getD (vStr "未知")
    let ratingInfo := (item.get? "rating").getD (vDict [])
    let rt ←
      if truthy ratingInfo then
        match ratingInfo with
        | vDict rd => do
          let rv ← pyFloatFn ((dictGet? rd "value").getD (vInt 0))
          let cv ← pyIntFn ((dictGet? rd "count").getD (vInt 0))
          some (vFloat rv, vInt cv)
        | _ => none
      else some (vFloat pfZero, vInt 0)
    let pic := (item.get? "pic").getD (vDict [])
    let poster :=
      if truthy pic then
        match pic with
        | vDict pd =>
          let lg := (dictGet? pd "large").getD (vStr "")
          if truthy lg then lg else (dictGet? pd "normal").getD (vStr "")
        | v => v
      else vStr ""
    some [("link", vStr link), ("movie_id", vInt nid), ("title", title),
          ("rating", rt.1), ("total_ratings", rt.2), ("poster", poster)]
  else none

/-- The item-to-record block of `_crawl_movies_by_region`: as the
category driver plus the `/subject/` uri fallback, a non-dict rating
value handled through `float`, and a `url` poster fallback. -/
def regionBuildMovie (item : Record) : Option Record := do
  let mid0 := (item.get? "id").getD (vStr "")
  let uri := (item.get? "uri").getD (vStr "")
  let mid ←
    if truthy uri then
      match uri with
      | vStr u =>
        if strContains u "movie/" then
          some (vStr (String.mk ((splitSeq 'm' "ovie/".data u.data).getLastD [])))
        else if strContains u "/subject/" then
          some (vStr (String.mk
            (rstripSlash ((splitSeq '/' "subject/".data u.data).getLastD []))))
        else some mid0
      | _ => none
    else some mid0
  if truthy mid then
    let link := "https://movie.douban.com/subject/" ++ pyStr mid ++ "/"
    let nid ← pyIntFn mid
    let title := (item.get? "title").getD (vStr "未知")
    let ratingInfo := (item.get? "rating").getD (vDict [])
    let rt ←
      if truthy ratingInfo then
        match ratingInfo with
        | vDict rd => do
          let rv ← pyFloatFn ((dictGet? rd "value").getD (vInt 0))
          let cv ← pyIntFn ((dictGet? rd "count").getD (vInt 0))
          some (vFloat rv, vInt cv)
        | v => do
          let rv ← pyFloatFn v
          some (vFloat rv, vInt 0)
      else some (vFloat pfZero, vInt 0)
    let pic := (item.get? "pic").getD (vDict [])
    let poster :=
      if truthy pic then
        match pic with
        | vDict pd =>
          let lg := (dictGet? pd "large").getD (vStr "")
          if truthy lg then lg
          else
            let nm := (dictGet? pd "normal").getD (vStr "")
            if truthy nm then nm else (dictGet? pd "url").getD (vStr "")
        | v => v
      else vStr ""
    some [("link", vStr link), ("movie_id", vInt nid), ("title", title),
          ("rating", rt.1), ("total_ratings", rt.2), ("poster", poster)]
  else none

/-- One API-driver item: build the record (skipping on failure),
dedup-check, and on acceptance normalize, persist, restamp `category`
after normalization, and append.  The per-item `try` absorbs
exceptions, keeping any key already inserted.  The flag reports
acceptance (the driver's `page_count`). -/
def apiItemStep (build : Record → Option Record) (catName : String)
    (st : DriverState) (item : Record) : DriverState × Bool :=
  match build item with
  | none => (st, false)
  | some movie =>
    match movieKey movie with
    | none => (st, false)
    | some key =>
      if key ≠ "" ∧ ¬ st.existing.contains key then
        let st1 := { st with existing := key :: st.existing }
        match normalize movie with
        | none => (st1, false)
        | some m1 =>
          match normalize m1 with
          | none => (st1, false)
          | some m2 =>
            let m1' := m1.set "category" (vStr catName)
            ({ st1 with movies := st1.movies ++ [m1'], saved := st1.saved ++ [m2] },
              true)
      else (st, false)

/-- An API driver's item loop, counting accepted items
(`page_count`). -/
def apiPageItems (build : Record → Option Record) (catName : String)
    (st : DriverState) : List Record → DriverState × Nat
  | [] => (st, 0)
  | it :: rest =>
    let (st1, acc) := apiItemStep build catName st it
    let (st2, n) := apiPageItems build catName st1 rest
    (st2, (if acc then 1 else 0) + n)

/-- `_crawl_movies_from_api` page loop: a failed fetch is fatal on page
0 and skipped otherwise; an empty item list breaks; a page accepting
nothing breaks except on page 0. -/
def apiGo (catName : String) (pages : Nat → Option (List Record)) :
    DriverState → Nat → Nat → DriverState
  | st, _, 0 => st
  | st, p, fuel + 1 =>
    match pages p with
    | none => if p = 0 then st else apiGo catName pages st (p + 1) fuel
    | some items =>
      if items.isEmpty then st
      else
        let (st', cnt) := apiPageItems apiBuildMovie catName st items
        if cnt = 0 ∧ p > 0 then st'
        else apiGo catName pages st' (p + 1) fuel

/-- `_crawl_movies_from_api`. -/
def crawlMoviesFromApi (catName : String) (maxPages : Nat)
    (pages : Nat → Option (List Record)) (existing0 : List String) : DriverState :=
  apiGo catName pages ⟨existing0, [], []⟩ 0 maxPages

/-- `_crawl_movies_by_region` page loop: as the category driver, except
any page accepting nothing breaks (no `page > 0` guard). -/
def regionGo (catName : String) (pages : Nat → Option (List Record)) :
    DriverState → Nat → Nat → DriverState
  | st, _, 0 => st
  | st, p, fuel + 1 =>
    match pages p with
    | none => if p = 0 then st else regionGo catName pages st (p + 1) fuel
    | some items =>
      if items.isEmpty then st
      else
        let (st', cnt) := apiPageItems regionBuildMovie catName st items
        if cnt = 0 then st'
        else regionGo catName pages st' (p + 1) fuel

/-- `_crawl_movies_by_region`. -/
def crawlMoviesByRegion (catName : String) (maxPages : Nat)
    (pages : Nat → Option (List Record)) (existing0 : List String) : DriverState :=
  regionGo catName pages ⟨existing0, [], []⟩ 0 maxPages

/-! ## A crawl session: several drivers sharing one dedup set, as in
`main()`'s option 7. -/

/-- One driver invocation with its page source. -/
inductive Invocation where
  | top (maxPages : Nat) (pages : Nat → Option (List (Option Record)))
  | api (catName : String) (maxPages : Nat) (pages : Nat → Option (List Record))
  | region (catName : String) (maxPages : Nat) (pages : Nat → Option (List Record))

/-- Run one invocation against a given dedup set. -/
def runInvocation : Invocation → List String → DriverState
  | .top mp pages, ex => crawlTop250 mp pages ex
  | .api c mp pages, ex => crawlMoviesFromApi c mp pages ex
  | .region c mp pages, ex => crawlMoviesByRegion c mp pages ex

/-- Run a sequence of driver invocations threading the shared dedup
set, collecting every accepted record in order. -/
def runSession : List Invocation → List String → List String × List Record
  | [], ex => (ex, [])
  | inv :: rest, ex =>
    let st := runInvocation inv ex
    let (ex', acc) := runSession rest st.existing
    (ex', st.movies ++ acc)

/-! ## Lemmas: dict operations -/

namespace Record

@[simp] theorem get?_nil (k : String) : Record.get? [] k = none := rfl

theorem get?_cons (kv : String × Value) (m : Record) (k : String) :
    Record.get? (kv :: m) k = if kv.1 = k then some kv.2 else m.get? k := rfl

@[simp] theorem get?_append (m₁ m₂ : Record) (k : String) :
    Record.get? (m₁ ++ m₂) k =
      match m₁.get? k with
      | some v => some v
      | none => m₂.get? k := by
  induction m₁ with
  | nil => simp
  | cons kv m ih =>
    by_cases h : kv.1 = k <;> simp [get?_cons, h, ih]

/-- A key is absent iff every entry has a different key. -/
theorem get?_eq_none_iff (m : Record) (k : String) :
    m.get? k = none ↔ ∀ kv ∈ m, kv.1 ≠ k := by
  induction m with
  | nil => simp
  | cons kv m ih =>
    by_cases h : kv.1 = k <;> simp [get?_cons, h, ih]

theorem hasKey_iff (m : Record) (k : String) :
    m.hasKey k = true ↔ ∃ v, m.get? k = some v := by
  simp [Record.hasKey, Option.isSome_iff_exists]

theorem get?_map_replace_self (m : Record) (k : String) (v : Value) :
    Record.get? (m.map (fun kv => if kv.1 = k then (k, v) else kv)) k =
      (m.get? k).map (fun _ => v) := by
  induction m with
  | nil => rfl
  | cons kv m ih =>
    by_cases hk : kv.1 = k
    · simp [get?_cons, hk]
    · simp [get?_cons, hk, ih]

theorem get?_map_replace_ne (m : Record) (k k' : String) (v : Value) (h : k ≠ k') :
    Record.get? (m.map (fun kv => if kv.1 = k then (k, v) else kv)) k' =
      m.get? k' := by
  induction m with
  | nil => rfl
  | cons kv m ih =>
    simp only [List.map_cons]
    by_cases hk : kv.1 = k
    · rw [if_pos hk]
      have h1 : kv.1 ≠ k' := by rw [hk]; exact h
      simp [get?_cons, h, h1, ih]
    · rw [if_neg hk]
      by_cases hk' : kv.1 = k' <;> simp [get?_cons, hk', ih]

theorem get?_set_self (m : Record) (k : String) (v : Value) :
    (m.set k v).get? k = some v := by
  unfold Record.set
  by_cases h : m.hasKey k
  · rw [if_pos h, get?_map_replace_self]
    obtain ⟨w, hw⟩ := (hasKey_iff m k).mp h
    simp [hw]
  · rw [if_neg h]
    have hn : m.get? k = none := by
      cases hg : m.get? k with
      | none => rfl
      | some w => exact absurd ((hasKey_iff m k).mpr ⟨w, hg⟩) h
    simp [get?_append, hn, get?_cons]

theorem get?_set_ne (m : Record) (k k' : String) (v : Value) (h : k ≠ k') :
    (m.set k v).get? k' = m.get? k' := by
  unfold Record.set
  by_cases hk : m.hasKey k
  · rw [if_pos hk, get?_map_replace_ne m k k' v h]
  · rw [if_neg hk, get?_append]
    cases hg : m.get? k' with
    | none => simp [get?_cons, h]
    | some w => simp

theorem get?_del_self (m : Record) (k : String) : (m.del k).get? k = none := by
  unfold Record.del
  simp only [ne_eq, decide_not]
  induction m with
  | nil => simp
  | cons kv m ih =>
    by_cases h : kv.1 = k <;> simp [h, List.filter_cons, get?_cons, ih]

theorem get?_del_ne (m : Record) (k k' : String) (h : k ≠ k') :
    (m.del k).get? k' = m.get? k' := by
  unfold Record.del
  simp only [ne_eq, decide_not]
  induction m with
  | nil => simp
  | cons kv m ih =>
    by_cases hk : kv.1 = k
    · have h1 : kv.1 ≠ k' := by rw [hk]; exact h
      simp [List.filter_cons, hk, h1, h, get?_cons, ih]
    · by_cases hk' : kv.1 = k'
      · simp [List.filter_cons, hk, hk', Ne.symm h, get?_cons]
      · simp [List.filter_cons, hk, hk', get?_cons, ih]

/-- Deleting a key that is not present does nothing. -/
theorem del_of_get?_none (m : Record) (k : String) (h : m.get? k = none) :
    m.del k = m := by
  rw [get?_eq_none_iff] at h
  unfold Record.del
  induction m with
  | nil => rfl
  | cons kv m ih =>
    have h1 := h kv (by simp)
    rw [List.filter_cons, if_pos (by simpa using h1),
      ih (fun kv' hkv' => h kv' (List.mem_cons_of_mem _ hkv'))]

/-- Writing back the value a key already holds is the identity, for a
well-formed dict. -/
theorem set_of_get?_eq (m : Record) (k : String) (v : Value) (hwf : RecordWF m)
    (h : m.get? k = some v) : m.set k v = m := by
  unfold Record.set
  have hk : m.hasKey k = true := (hasKey_iff m k).mpr ⟨v, h⟩
  simp only [hk, if_true]
  clear hk
  induction m with
  | nil => simp at h
  | cons kv m ih =>
    by_cases hkv : kv.1 = k
    · simp only [get?_cons, hkv, if_true, Option.some.injEq] at h
      have hnotin : ∀ kv' ∈ m, kv'.1 ≠ k := by
        intro kv' hkv' heq
        have : kv.1 ∈ m.map Prod.fst := by
          rw [hkv, ← heq]; exact List.mem_map_of_mem Prod.fst hkv'
        exact (List.nodup_cons.mp hwf).1 this
      simp only [List.map_cons, hkv, if_true]
      have hrest : ∀ kv' ∈ m, (if kv'.1 = k then (k, v) else kv') = id kv' := by
        intro kv' hkv'
        simp [hnotin kv' hkv']
      rw [List.map_congr_left hrest, List.map_id]
      cases kv with
      | mk k₀ v₀ =>
        simp only at hkv h
        rw [hkv, h]
    · simp only [get?_cons, hkv, if_false] at h
      have hwf' : RecordWF m := (List.nodup_cons.mp hwf).2
      simp only [List.map_cons, hkv, if_false]
      rw [ih hwf' h]

/-- `set` preserves the key list when the key is present, else appends
it; either way well-formedness is preserved. -/
theorem WF_set (m : Record) (k : String) (v : Value) (hwf : RecordWF m) :
    RecordWF (m.set k v) := by
  unfold Record.set
  by_cases h : m.hasKey k
  · simp only [h, if_true]
    unfold RecordWF at hwf ⊢
    have : ((m.map fun kv => if kv.1 = k then (k, v) else kv).map Prod.fst) =
        m.map Prod.fst := by
      rw [List.map_map]
      refine List.map_congr_left ?_
      intro kv _
      by_cases hk : kv.1 = k <;> simp [hk]
    rw [this]; exact hwf
  · rw [if_neg h]
    have hn : m.get? k = none := by
      cases hg : m.get? k with
      | none => rfl
      | some w => exact absurd ((hasKey_iff m k).mpr ⟨w, hg⟩) h
    rw [get?_eq_none_iff] at hn
    unfold RecordWF at hwf ⊢
    rw [List.map_append, List.nodup_append]
    refine ⟨hwf, by simp, ?_⟩
    intro a ha
    simp only [List.map_cons, List.map_nil, List.mem_singleton]
    intro hb
    subst hb
    obtain ⟨kv, hkv, hfst⟩ := List.mem_map.mp ha
    exact hn kv hkv hfst

theorem WF_del (m : Record) (k : String) (hwf : RecordWF m) :
    RecordWF (m.del k) := by
  unfold RecordWF at hwf ⊢
  exact ((m.filter_sublist).map Prod.fst).nodup hwf

end Record

/-! ## Lemmas: trimming -/

theorem trimChars_eq_rdropWhile (l : List Char) :
    trimChars l = List.rdropWhile Char.isWhitespace (l.dropWhile Char.isWhitespace) := rfl

theorem head?_implies_mem {α : Type} {l : List α} {c : α} (h : l.head? = some c) :
    c ∈ l := by
  cases l with
  | nil => simp at h
  | cons a as => simp at h; simp [h]

theorem head?_of_pref {α : Type} {l₁ l₂ : List α} {c : α} (h : l₁ <+: l₂)
    (hc : l₁.head? = some c) : l₂.head? = some c := by
  obtain ⟨t, rfl⟩ := h
  cases l₁ with
  | nil => simp at hc
  | cons a as => simpa using hc

theorem dropWhile_eq_self_of_head (p : Char → Bool) (l : List Char)
    (h : ∀ c, l.head? = some c → p c = false) : l.dropWhile p = l := by
  cases l with
  | nil => rfl
  | cons a as =>
    rw [List.dropWhile_cons, if_neg]
    simp [h a rfl]

theorem dropWhile_head_not (p : Char → Bool) (l : List Char) (c : Char)
    (h : (l.dropWhile p).head? = some c) : p c = false := by
  induction l with
  | nil => simp [List.dropWhile] at h
  | cons a as ih =>
    rw [List.dropWhile_cons] at h
    by_cases hp : p a
    · rw [if_pos hp] at h; exact ih h
    · rw [if_neg hp] at h
      simp at h
      rw [← h]
      simpa using hp

theorem trimChars_eq_self (l : List Char) (h : ∀ c ∈ l, c.isWhitespace = false) :
    trimChars l = l := by
  unfold trimChars
  rw [dropWhile_eq_self_of_head _ _ (fun c hc => h c (head?_implies_mem hc)),
    dropWhile_eq_self_of_head _ _
      (fun c hc => h c (List.mem_reverse.mp (head?_implies_mem hc))),
    List.reverse_reverse]

theorem trimChars_idem (l : List Char) : trimChars (trimChars l) = trimChars l := by
  rw [trimChars_eq_rdropWhile, trimChars_eq_rdropWhile]
  have h1 : List.dropWhile Char.isWhitespace
      (List.rdropWhile Char.isWhitespace (l.dropWhile Char.isWhitespace)) =
      List.rdropWhile Char.isWhitespace (l.dropWhile Char.isWhitespace) := by
    apply dropWhile_eq_self_of_head
    intro c hc
    exact dropWhile_head_not _ l c
      (head?_of_pref (@List.rdropWhile_prefix _ Char.isWhitespace _) hc)
  rw [h1, List.rdropWhile_idempotent]

theorem trimChars_cons_space (l : List Char) : trimChars (' ' :: l) = trimChars l := by
  unfold trimChars
  rw [List.dropWhile_cons, if_pos (by decide)]

theorem pyStrip_idem (s : String) : pyStrip (pyStrip s) = pyStrip s := by
  unfold pyStrip
  rw [show (String.mk (trimChars s.data)).data = trimChars s.data from rfl,
    trimChars_idem]

/-! ## Lemmas: comma split / join round trip -/

theorem splitChar_ne_nil (sep : Char) (l : List Char) : splitChar sep l ≠ [] := by
  cases l with
  | nil => simp [splitChar]
  | cons c cs =>
    rw [splitChar]
    by_cases h : c = sep
    · simp [h]
    · rw [if_neg h]
      cases hs : splitChar sep cs <;> simp

theorem splitChar_no_sep (sep : Char) (l : List Char) (h : sep ∉ l) :
    splitChar sep l = [l] := by
  induction l with
  | nil => rfl
  | cons c cs ih =>
    have hc : ¬ c = sep := fun he => h (by rw [he]; exact List.mem_cons_self sep cs)
    rw [splitChar, if_neg hc, ih (fun hm => h (List.mem_cons_of_mem c hm))]

theorem splitChar_append_sep (sep : Char) (a b : List Char) (h : sep ∉ a) :
    splitChar sep (a ++ sep :: b) = a :: splitChar sep b := by
  induction a with
  | nil => simp [splitChar]
  | cons c a' ih =>
    have hc : ¬ c = sep := fun he => h (by rw [he]; exact List.mem_cons_self sep a')
    simp only [List.cons_append]
    rw [splitChar, if_neg hc, ih (fun hm => h (List.mem_cons_of_mem c hm))]

theorem splitChar_joinChars (p : List Char) (rest : List (List Char))
    (hp : ',' ∉ p) (hrest : ∀ q ∈ rest, ',' ∉ q) :
    splitChar ',' (joinChars (p :: rest)) = p :: rest.map (fun q => ' ' :: q) := by
  induction rest generalizing p with
  | nil => exact splitChar_no_sep ',' p hp
  | cons q rest' ih =>
    show splitChar ',' (p ++ ',' :: ' ' :: joinChars (q :: rest')) = _
    rw [splitChar_append_sep ',' p _ hp]
    have h2 : splitChar ',' (' ' :: joinChars (q :: rest')) =
        (' ' :: q) :: rest'.map (fun q => ' ' :: q) := by
      rw [splitChar, if_neg (by decide)]
      rw [ih q (hrest q (by simp)) (fun q' hq' => hrest q' (by simp [hq']))]
    rw [h2]
    simp

/-- A nonempty, comma-free, already-stripped part. -/
def GoodPart (q : List Char) : Prop := q ≠ [] ∧ ',' ∉ q ∧ trimChars q = q

theorem stf_chars (p : List Char) (rest : List (List Char)) (hp : GoodPart p)
    (hr : ∀ q ∈ rest, GoodPart q) :
    ((splitChar ',' (joinChars (p :: rest))).map trimChars).filter
      (fun x => x ≠ []) = p :: rest := by
  rw [splitChar_joinChars p rest hp.2.1 (fun q hq => (hr q hq).2.1)]
  simp only [List.map_cons, List.map_map]
  have hmap : (rest.map (trimChars ∘ fun q => ' ' :: q)) = rest := by
    have : ∀ q ∈ rest, (trimChars ∘ fun q => ' ' :: q) q = id q := by
      intro q hq
      simp only [Function.comp, id]
      rw [trimChars_cons_space, (hr q hq).2.2]
    rw [List.map_congr_left this, List.map_id]
  rw [hmap, hp.2.2, List.filter_cons, if_pos (by simpa using hp.1)]
  congr 1
  rw [List.filter_eq_self]
  intro q hq
  simpa using (hr q hq).1

/-- The `split → strip → drop empties` pipeline inverts `', '.join` on
lists of nonempty, comma-free, already-stripped names. -/
theorem splitTrimFilter_join (l : List String)
    (h : ∀ s ∈ l, GoodPart s.data) :
    splitTrimFilter (joinCommaSpace l) = l := by
  cases l with
  | nil => rfl
  | cons s rest =>
    unfold splitTrimFilter joinCommaSpace
    rw [show (String.mk (joinChars ((s :: rest).map String.data))).data =
      joinChars ((s :: rest).map String.data) from rfl]
    rw [show ((s :: rest).map String.data) = s.data :: rest.map String.data from rfl]
    rw [stf_chars s.data (rest.map String.data) (h s (by simp))
      (by
        intro q hq
        obtain ⟨t, ht, rfl⟩ := List.mem_map.mp hq
        exact h t (by simp [ht]))]
    simp only [List.map_cons, List.map_map]
    rw [show (String.mk s.data) = s from rfl]
    congr 1
    have hmk : ∀ t ∈ rest, (String.mk ∘ String.data) t = id t := fun t _ => rfl
    rw [List.map_congr_left hmk, List.map_id]

/-! ## Lemmas: digits and the float print/parse round trip -/

theorem foldl_digits (a : Nat) (l : List Nat) :
    l.foldl (fun x d => 10 * x + d) a = a * 10 ^ l.length + ofDigitsBE l := by
  induction l generalizing a with
  | nil => simp [ofDigitsBE]
  | cons d l ih =>
    simp only [List.foldl_cons, List.length_cons]
    rw [ih]
    have h0 : ofDigitsBE (d :: l) = (10 * 0 + d) * 10 ^ l.length + ofDigitsBE l := by
      show List.foldl (fun x d => 10 * x + d) 0 (d :: l) = _
      rw [List.foldl_cons, ih]
    rw [h0]
    ring

theorem ofDigitsBE_cons (d : Nat) (l : List Nat) :
    ofDigitsBE (d :: l) = d * 10 ^ l.length + ofDigitsBE l := by
  show List.foldl (fun x d => 10 * x + d) 0 (d :: l) = _
  rw [List.foldl_cons, foldl_digits]
  ring

theorem ofDigitsBE_append_single (l : List Nat) (d : Nat) :
    ofDigitsBE (l ++ [d]) = 10 * ofDigitsBE l + d := by
  show List.foldl (fun x d => 10 * x + d) 0 (l ++ [d]) = _
  rw [List.foldl_append]
  rfl

theorem ofDigitsBE_replicate_zero (j : Nat) (l : List Nat) :
    ofDigitsBE (List.replicate j 0 ++ l) = ofDigitsBE l := by
  induction j with
  | zero => simp
  | succ j ih =>
    rw [List.replicate_succ, List.cons_append, ofDigitsBE_cons]
    simpa using ih

theorem ofDigitsBE_reverse (l : List Nat) :
    ofDigitsBE l.reverse = Nat.ofDigits 10 l := by
  induction l with
  | nil => simp [ofDigitsBE, Nat.ofDigits]
  | cons d l ih =>
    rw [List.reverse_cons, ofDigitsBE_append_single, ih, Nat.ofDigits_cons]
    ring

theorem ofDigitsBE_digitsBEAux (fuel n : Nat) (h : n ≤ fuel) :
    ofDigitsBE (digitsBEAux fuel n) = n := by
  induction fuel generalizing n with
  | zero =>
    interval_cases n
    rfl
  | succ fuel ih =>
    by_cases hn : n = 0
    · subst hn
      rfl
    · show ofDigitsBE (if n = 0 then [] else digitsBEAux fuel (n / 10) ++ [n % 10]) = n
      rw [if_neg hn, ofDigitsBE_append_single, ih (n / 10) (by omega)]
      omega

theorem ofDigitsBE_digitsBE (n : Nat) : ofDigitsBE (digitsBE n) = n :=
  ofDigitsBE_digitsBEAux n n (Nat.le_refl n)

theorem digitsBEAux_lt (fuel n : Nat) : ∀ d ∈ digitsBEAux fuel n, d < 10 := by
  induction fuel generalizing n with
  | zero => intro d hd; simp [digitsBEAux] at hd
  | succ fuel ih =>
    intro d hd
    by_cases hn : n = 0
    · subst hn
      simp [digitsBEAux] at hd
    · rw [show digitsBEAux (fuel + 1) n =
        (if n = 0 then [] else digitsBEAux fuel (n / 10) ++ [n % 10]) from rfl,
        if_neg hn] at hd
      rcases List.mem_append.mp hd with h1 | h2
      · exact ih (n / 10) d h1
      · have : d = n % 10 := by simpa using h2
        omega

theorem digitsBE_lt (n : Nat) : ∀ d ∈ digitsBE n, d < 10 :=
  digitsBEAux_lt n n

/-- The facts about a decimal digit character that the parser-printer
round trip needs. -/
theorem digitChar_spec (d : Nat) (h : d < 10) :
    (digitChar d).isDigit = true ∧ digitVal (digitChar d) = d ∧
      (digitChar d).isWhitespace = false ∧ digitChar d ≠ '-' ∧ digitChar d ≠ '+' ∧
      digitChar d ≠ '.' ∧ digitChar d ≠ 'e' ∧ digitChar d ≠ 'E' := by
  unfold digitChar digitVal
  interval_cases d <;>
    exact ⟨by decide, by decide, by decide, by decide, by decide, by decide,
      by decide, by decide⟩

theorem takeDigits_append (ds : List Nat) (rest : List Char)
    (h : ∀ d ∈ ds, d < 10)
    (hr : ∀ c, rest.head? = some c → c.isDigit = false) :
    takeDigits (ds.map digitChar ++ rest) = (ds, rest) := by
  induction ds with
  | nil =>
    simp only [List.map_nil, List.nil_append]
    cases rest with
    | nil => rfl
    | cons c cs =>
      rw [takeDigits, if_neg]
      simp [hr c rfl]
  | cons d ds ih =>
    have hd := digitChar_spec d (h d (by simp))
    simp only [List.map_cons, List.cons_append]
    rw [takeDigits, if_pos hd.1, ih (fun d' hd' => h d' (by simp [hd']))]
    simp [hd.2.1]

theorem canonFloat_of_canon (m : Int) (e : Nat) (h : FCanon (m, e)) :
    canonFloat m e = ⟨(m, e), h⟩ := by
  cases e with
  | zero => rfl
  | succ e' =>
    have h' : e' + 1 ≠ 0 → ¬ (10 : Int) ∣ m := h
    unfold canonFloat
    rw [dif_neg (h' (Nat.succ_ne_zero e'))]

theorem canonFloat_mul10 (m : Int) (e : Nat) :
    canonFloat (10 * m) (e + 1) = canonFloat m e := by
  unfold canonFloat
  rw [dif_pos ⟨m, rfl⟩]
  have h10 : (10 : Int) * m / 10 = m :=
    Int.mul_ediv_cancel_left m (by norm_num : (10 : Int) ≠ 0)
  rw [h10]
  cases e with
  | zero => rfl
  | succ e' => rfl

/-- Core computation: parsing a digit string `I.F` (optionally
negated). -/
theorem parseFloatCore_digits (sgn : Bool) (I F : List Nat)
    (hI : ∀ d ∈ I, d < 10) (hF : ∀ d ∈ F, d < 10) (hne : I ≠ []) :
    parseFloatCore ((if sgn then ['-'] else []) ++ I.map digitChar ++
        '.' :: F.map digitChar) =
      some ((if sgn then -1 else 1) * (ofDigitsBE (I ++ F) : Int), F.length) := by
  obtain ⟨d0, I', rfl⟩ : ∃ d0 I', I = d0 :: I' := by
    cases I with
    | nil => exact absurd rfl hne
    | cons a b => exact ⟨a, b, rfl⟩
  have hd0s := digitChar_spec d0 (hI d0 (by simp))
  have ht1 : takeDigits ((d0 :: I').map digitChar ++ '.' :: F.map digitChar) =
      (d0 :: I', '.' :: F.map digitChar) := by
    apply takeDigits_append _ _ hI
    intro c hcx
    simp only [List.head?] at hcx
    rw [show c = '.' by simpa using hcx.symm]
    decide
  have ht2 : takeDigits (F.map digitChar) = (F, []) := by
    have := takeDigits_append F [] hF (by intro c hcx; simp at hcx)
    simpa using this
  cases sgn with
  | false =>
    simp only [if_neg (Bool.false_ne_true), List.nil_append]
    show parseFloatCore (digitChar d0 :: (I'.map digitChar ++ '.' :: F.map digitChar)) = _
    have ht1' : takeDigits (digitChar d0 ::
        (I'.map digitChar ++ '.' :: F.map digitChar)) =
        (d0 :: I', '.' :: F.map digitChar) := by
      simpa using ht1
    unfold parseFloatCore
    simp [ht1', ht2, hd0s.2.2.2.1, hd0s.2.2.2.2.1]
  | true =>
    simp only [if_pos rfl, List.singleton_append]
    show parseFloatCore ('-' :: ((d0 :: I').map digitChar ++ '.' :: F.map digitChar)) = _
    have ht1' : takeDigits (digitChar d0 ::
        (I'.map digitChar ++ '.' :: F.map digitChar)) =
        (d0 :: I', '.' :: F.map digitChar) := by
      simpa using ht1
    unfold parseFloatCore
    simp [ht1', ht2]

/-- `float(str(f)) == f` for the modelled floats: the decimal repr
parses back to exactly the same canonical pair. -/
theorem parseFloat_floatRepr (p : PyFloat) : parseFloat (floatRepr p) = some p := by
  obtain ⟨⟨m, e⟩, hc⟩ := p
  have hds : ∀ d ∈ digitsBE m.natAbs, d < 10 := digitsBE_lt m.natAbs
  set ds := digitsBE m.natAbs with hds_def
  set pad : List Nat := List.replicate (e + 1 - ds.length) 0 ++ ds with hpad_def
  have hpadlt : ∀ d ∈ pad, d < 10 := by
    intro d hd
    rcases List.mem_append.mp hd with h1 | h2
    · have := List.eq_of_mem_replicate h1
      omega
    · exact hds d h2
  have hpadlen : e + 1 ≤ pad.length := by
    rw [hpad_def, List.length_append, List.length_replicate]
    omega
  set k : Nat := pad.length - e with hk_def
  have hk1 : 1 ≤ k := by omega
  have htk : (pad.take k).length = k := by
    rw [List.length_take]
    omega
  have hdk : (pad.drop k).length = e := by
    rw [List.length_drop]
    omega
  have hofpad : ofDigitsBE pad = m.natAbs := by
    rw [hpad_def, ofDigitsBE_replicate_zero, hds_def, ofDigitsBE_digitsBE]
  set fds : List Nat := if e = 0 then [0] else pad.drop k with hfds_def
  have hfdslt : ∀ d ∈ fds, d < 10 := by
    intro d hd
    rw [hfds_def] at hd
    by_cases he : e = 0
    · rw [if_pos he] at hd
      simp at hd
      omega
    · rw [if_neg he] at hd
      exact hpadlt d (List.mem_of_mem_drop hd)
  have hpk : pad.take k ≠ [] := by
    intro hcon
    have := congrArg List.length hcon
    rw [htk] at this
    simp at this
    omega
  have hrepr : (floatRepr ⟨(m, e), hc⟩).data =
      (if decide (m < 0) then ['-'] else []) ++ (pad.take k).map digitChar ++
        '.' :: fds.map digitChar := by
    have hfrep : (if e = 0 then ['0'] else (pad.drop k).map digitChar) =
        fds.map digitChar := by
      by_cases he : e = 0
      · rw [hfds_def, if_pos he, if_pos he]; rfl
      · rw [hfds_def, if_neg he, if_neg he]
    show (if m < 0 then ['-'] else []) ++ (pad.take k).map digitChar ++ ['.'] ++
        (if e = 0 then ['0'] else (pad.drop k).map digitChar) = _
    rw [hfrep]
    by_cases hm : m < 0 <;>
      simp [hm, List.append_assoc]
  have hws : ∀ c ∈ (floatRepr ⟨(m, e), hc⟩).data, c.isWhitespace = false := by
    intro c hcm
    rw [hrepr] at hcm
    simp only [List.append_assoc, List.mem_append, List.mem_cons] at hcm
    rcases hcm with h1 | h2 | h3 | h4
    · by_cases hm : m < 0
      · rw [if_pos (by simpa using hm)] at h1; simp at h1; subst h1; decide
      · rw [if_neg (by simpa using hm)] at h1; simp at h1
    · obtain ⟨d, hd, rfl⟩ := List.mem_map.mp h2
      exact (digitChar_spec d (hpadlt d (List.mem_of_mem_take hd))).2.2.1
    · subst h3; decide
    · obtain ⟨d, hd, rfl⟩ := List.mem_map.mp h4
      exact (digitChar_spec d (hfdslt d hd)).2.2.1
  have hcore : parseFloatCore ((floatRepr ⟨(m, e), hc⟩).data) =
      some ((if decide (m < 0) then -1 else 1) *
        (ofDigitsBE (pad.take k ++ fds) : Int), fds.length) := by
    rw [hrepr]
    exact parseFloatCore_digits (decide (m < 0)) (pad.take k) fds
      (fun d hd => hpadlt d (List.mem_of_mem_take hd)) hfdslt hpk
  unfold parseFloat
  rw [show trimChars ((floatRepr ⟨(m, e), hc⟩).data) =
      (floatRepr ⟨(m, e), hc⟩).data from trimChars_eq_self _ hws]
  rw [hcore]
  refine congrArg some ?_
  by_cases he : e = 0
  · subst he
    have hfds0 : fds = [0] := by rw [hfds_def]; simp
    have hk0 : k = pad.length := by omega
    rw [hfds0, hk0, List.take_length]
    have hof : ofDigitsBE (pad ++ [0]) = 10 * m.natAbs := by
      rw [ofDigitsBE_append_single, hofpad]
      omega
    rw [hof]
    by_cases hm : m < 0
    · rw [if_pos (by simpa using hm)]
      show canonFloat (-1 * (10 * (m.natAbs : Int))) (List.length [0]) = _
      have h1 : -1 * (10 * (m.natAbs : Int)) = 10 * (-(m.natAbs : Int)) := by ring
      rw [h1, show List.length [0] = 0 + 1 from rfl, canonFloat_mul10]
      have h2 : (-(m.natAbs : Int)) = m := by omega
      rw [h2]
      exact canonFloat_of_canon m 0 hc
    · rw [if_neg (by simpa using hm)]
      have h1 : 1 * (10 * (m.natAbs : Int)) = 10 * m := by omega
      show canonFloat (1 * (10 * (m.natAbs : Int))) (List.length [0]) = _
      rw [h1, show List.length [0] = 0 + 1 from rfl, canonFloat_mul10]
      exact canonFloat_of_canon m 0 hc
  · have hfdse : fds = pad.drop k := by rw [hfds_def, if_neg he]
    rw [hfdse, List.take_append_drop, hofpad, hdk]
    by_cases hm : m < 0
    · rw [if_pos (by simpa using hm)]
      have h1 : -1 * ((m.natAbs : Int)) = m := by omega
      rw [h1]
      exact canonFloat_of_canon m e hc
    · rw [if_neg (by simpa using hm)]
      have h1 : 1 * ((m.natAbs : Int)) = m := by omega
      rw [h1]
      exact canonFloat_of_canon m e hc

/-! ## Lemmas: shapes of the normalize steps

Each step either leaves the record alone or performs `set`/`del` on its
own keys; the frame lemmas below follow. -/

theorem stepActors_shape (m m' : Record) (h : stepActors m = some m') :
    m' = m ∨ ∃ v, m' = m.set "actors" v := by
  unfold stepActors at h
  split at h
  · split at h
    · split at h
      · split at h
        · exact Or.inl (by injection h with h'; exact h'.symm)
        · exact Or.inr ⟨_, by injection h with h'; exact h'.symm⟩
      · exact absurd h (by simp)
    · exact Or.inl (by injection h with h'; exact h'.symm)
  · exact Or.inl (by injection h with h'; exact h'.symm)

theorem stepDirectors_shape (m m' : Record) (h : stepDirectors m = some m') :
    m' = m ∨ ∃ v, m' = m.set "directors" v := by
  unfold stepDirectors at h
  split at h
  · split at h
    · split at h
      · split at h
        · exact Or.inr ⟨_, by injection h with h'; exact h'.symm⟩
        · exact Or.inl (by injection h with h'; exact h'.symm)
      · exact absurd h (by simp)
    · exact Or.inl (by injection h with h'; exact h'.symm)
  · exact Or.inl (by injection h with h'; exact h'.symm)

theorem stepScreenwriters_shape (m m' : Record) (h : stepScreenwriters m = some m') :
    m' = m ∨ ∃ v, m' = m.set "screenwriters" v := by
  unfold stepScreenwriters at h
  split at h
  · split at h
    · split at h
      · split at h
        · exact Or.inr ⟨_, by injection h with h'; exact h'.symm⟩
        · exact Or.inl (by injection h with h'; exact h'.symm)
      · exact absurd h (by simp)
    · exact Or.inl (by injection h with h'; exact h'.symm)
  · exact Or.inl (by injection h with h'; exact h'.symm)

theorem stepRating_shape (m : Record) :
    stepRating m = m ∨ ∃ v, stepRating m = m.set "rating" v := by
  unfold stepRating
  split
  · split
    · split
      · exact Or.inr ⟨_, rfl⟩
      · exact Or.inr ⟨_, rfl⟩
    · exact Or.inl rfl
  · exact Or.inr ⟨_, rfl⟩

theorem totalRatingsElif_shape (m : Record) :
    totalRatingsElif m = m ∨ ∃ v, totalRatingsElif m = m.set "total_ratings" v := by
  unfold totalRatingsElif
  split
  · exact Or.inr ⟨_, rfl⟩
  · exact Or.inr ⟨_, rfl⟩
  · exact Or.inl rfl

theorem stepPeople_shape (m m' : Record) (h : stepPeople m = some m') :
    m' = m ∨ (∃ v, m' = m.set "total_ratings" v) ∨
      ∃ v, m' = (m.set "total_ratings" v).del "people" := by
  unfold stepPeople at h
  split at h
  · split at h
    · split at h
      · exact Or.inr (Or.inr ⟨_, by injection h with h'; exact h'.symm⟩)
      · exact absurd h (by simp)
    · rcases totalRatingsElif_shape m with h1 | ⟨v, h1⟩
      · exact Or.inl (by injection h with h'; rw [← h', h1])
      · exact Or.inr (Or.inl ⟨v, by injection h with h'; rw [← h', h1]⟩)
  · rcases totalRatingsElif_shape m with h1 | ⟨v, h1⟩
    · exact Or.inl (by injection h with h'; rw [← h', h1])
    · exact Or.inr (Or.inl ⟨v, by injection h with h'; rw [← h', h1]⟩)

theorem deriveMovieIdFromLink_shape (m m' : Record)
    (h : deriveMovieIdFromLink m = some m') : ∃ v, m' = m.set "movie_id" v := by
  unfold deriveMovieIdFromLink at h
  split at h
  · split at h
    · split at h
      · split at h
        · exact ⟨_, by injection h with h'; exact h'.symm⟩
        · exact ⟨_, by injection h with h'; exact h'.symm⟩
      · exact absurd h (by simp)
    · exact ⟨_, by injection h with h'; exact h'.symm⟩
  · exact ⟨_, by injection h with h'; exact h'.symm⟩

theorem stepMovieId_shape (m m' : Record) (h : stepMovieId m = some m') :
    m' = m ∨ ∃ v, m' = m.set "movie_id" v := by
  unfold stepMovieId at h
  split at h
  · exact Or.inr (deriveMovieIdFromLink_shape m m' h)
  · split at h
    · split at h
      · exact Or.inr ⟨_, by injection h with h'; exact h'.symm⟩
      · exact Or.inr ⟨_, by injection h with h'; exact h'.symm⟩
    · exact Or.inl (by injection h with h'; exact h'.symm)
    · exact Or.inr ⟨_, by injection h with h'; exact h'.symm⟩

theorem cleanRegionField_shape (key : String) (m m' : Record)
    (h : cleanRegionField key m = some m') :
    m' = m ∨ m' = m.set key (vStr "") := by
  unfold cleanRegionField at h
  split at h
  · split at h
    · split at h
      · exact Or.inr (by injection h with h'; exact h'.symm)
      · exact Or.inl (by injection h with h'; exact h'.symm)
      · exact absurd h (by simp)
    · exact Or.inl (by injection h with h'; exact h'.symm)
  · exact Or.inl (by injection h with h'; exact h'.symm)

theorem infoYearBranch_shape (m m' : Record) (h : infoYearBranch m = some m') :
    m' = m ∨ ∃ v, m' = m.set "release_date" v := by
  unfold infoYearBranch at h
  split at h
  · split at h
    · split at h
      · split at h
        · split at h
          · exact Or.inr ⟨_, by injection h with h'; exact h'.symm⟩
          · exact Or.inl (by injection h with h'; exact h'.symm)
        · exact Or.inl (by injection h with h'; exact h'.symm)
      · exact absurd h (by simp)
    · exact Or.inl (by injection h with h'; exact h'.symm)
  · exact Or.inl (by injection h with h'; exact h'.symm)

theorem releaseElse_shape (m m' : Record) (h : releaseElse m = some m') :
    m' = m ∨ (∃ v, m' = m.set "release_date" v) ∨
      ∃ v, m' = (m.set "release_date" v).del "release_year" := by
  unfold releaseElse at h
  split at h
  · split at h
    · split at h
      · exact Or.inr (Or.inr ⟨_, by injection h with h'; exact h'.symm⟩)
      · rcases infoYearBranch_shape m m' h with h1 | ⟨v, h1⟩
        · exact Or.inl h1
        · exact Or.inr (Or.inl ⟨v, h1⟩)
    · rcases infoYearBranch_shape m m' h with h1 | ⟨v, h1⟩
      · exact Or.inl h1
      · exact Or.inr (Or.inl ⟨v, h1⟩)
  · exact Or.inl (by injection h with h'; exact h'.symm)

theorem stepRelease_shape (m m' : Record) (h : stepRelease m = some m') :
    m' = m ∨ (∃ v, m' = m.set "release_date" v) ∨
      (∃ v, m' = (m.set "release_date" v).del "release_year") ∨
      m' = m.del "release_dates" ∨
      ∃ v, m' = (m.set "release_date" v).del "release_dates" := by
  unfold stepRelease at h
  split at h
  · split at h
    · split at h
      · split at h
        · split at h
          · exact Or.inr (Or.inr (Or.inr (Or.inr
              ⟨_, by injection h with h'; exact h'.symm⟩)))
          · exact Or.inr (Or.inr (Or.inr (Or.inl
              (by injection h with h'; exact h'.symm))))
        · exact Or.inr (Or.inr (Or.inr (Or.inl
            (by injection h with h'; exact h'.symm))))
      · exact absurd h (by simp)
    · rcases releaseElse_shape m m' h with h1 | ⟨v, h1⟩ | ⟨v, h1⟩
      · exact Or.inl h1
      · exact Or.inr (Or.inl ⟨v, h1⟩)
      · exact Or.inr (Or.inr (Or.inl ⟨v, h1⟩))
  · rcases releaseElse_shape m m' h with h1 | ⟨v, h1⟩ | ⟨v, h1⟩
    · exact Or.inl h1
    · exact Or.inr (Or.inl ⟨v, h1⟩)
    · exact Or.inr (Or.inr (Or.inl ⟨v, h1⟩))

theorem stepReleaseFinal_shape (m : Record) :
    stepReleaseFinal m = m.del "release_year" ∨
      ∃ v, stepReleaseFinal m = (m.set "release_date" v).del "release_year" := by
  unfold stepReleaseFinal
  split
  · exact Or.inr ⟨_, rfl⟩
  · exact Or.inl rfl

/-- Frame: a step that only rewrote `key` leaves every other key's
lookup unchanged. -/
theorem get?_of_setShape {m m' : Record} {key : String}
    (h : m' = m ∨ ∃ v, m' = m.set key v) (k : String) (hk : k ≠ key) :
    m'.get? k = m.get? k := by
  rcases h with rfl | ⟨v, rfl⟩
  · rfl
  · exact Record.get?_set_ne m key k v (Ne.symm hk)

theorem WF_of_setShape {m m' : Record} {key : String}
    (h : m' = m ∨ ∃ v, m' = m.set key v) (hwf : RecordWF m) : RecordWF m' := by
  rcases h with rfl | ⟨v, rfl⟩
  · exact hwf
  · exact Record.WF_set m key v hwf

theorem stepActors_frame (m m' : Record) (h : stepActors m = some m') (k : String)
    (hk : k ≠ "actors") : m'.get? k = m.get? k :=
  get?_of_setShape (stepActors_shape m m' h) k hk

theorem stepDirectors_frame (m m' : Record) (h : stepDirectors m = some m')
    (k : String) (hk : k ≠ "directors") : m'.get? k = m.get? k :=
  get?_of_setShape (stepDirectors_shape m m' h) k hk

theorem stepScreenwriters_frame (m m' : Record) (h : stepScreenwriters m = some m')
    (k : String) (hk : k ≠ "screenwriters") : m'.get? k = m.get? k :=
  get?_of_setShape (stepScreenwriters_shape m m' h) k hk

theorem stepRating_frame (m : Record) (k : String) (hk : k ≠ "rating") :
    (stepRating m).get? k = m.get? k :=
  get?_of_setShape (stepRating_shape m) k hk

theorem stepPeople_frame (m m' : Record) (h : stepPeople m = some m') (k : String)
    (hk1 : k ≠ "total_ratings") (hk2 : k ≠ "people") : m'.get? k = m.get? k := by
  rcases stepPeople_shape m m' h with rfl | ⟨v, rfl⟩ | ⟨v, rfl⟩
  · rfl
  · exact Record.get?_set_ne m _ k v (Ne.symm hk1)
  · rw [Record.get?_del_ne _ _ k (Ne.symm hk2),
      Record.get?_set_ne m _ k v (Ne.symm hk1)]

theorem stepMovieId_frame (m m' : Record) (h : stepMovieId m = some m') (k : String)
    (hk : k ≠ "movie_id") : m'.get? k = m.get? k :=
  get?_of_setShape (stepMovieId_shape m m' h) k hk

theorem cleanRegionField_frame (key : String) (m m' : Record)
    (h : cleanRegionField key m = some m') (k : String) (hk : k ≠ key) :
    m'.get? k = m.get? k := by
  rcases cleanRegionField_shape key m m' h with rfl | rfl
  · rfl
  · exact Record.get?_set_ne m key k _ (Ne.symm hk)

theorem stepRelease_frame (m m' : Record) (h : stepRelease m = some m') (k : String)
    (hk1 : k ≠ "release_date") (hk2 : k ≠ "release_dates")
    (hk3 : k ≠ "release_year") : m'.get? k = m.get? k := by
  rcases stepRelease_shape m m' h with rfl | ⟨v, rfl⟩ | ⟨v, rfl⟩ | rfl | ⟨v, rfl⟩
  · rfl
  · exact Record.get?_set_ne m _ k v (Ne.symm hk1)
  · rw [Record.get?_del_ne _ _ k (Ne.symm hk3),
      Record.get?_set_ne m _ k v (Ne.symm hk1)]
  · exact Record.get?_del_ne m _ k (Ne.symm hk2)
  · rw [Record.get?_del_ne _ _ k (Ne.symm hk2),
      Record.get?_set_ne m _ k v (Ne.symm hk1)]

theorem stepReleaseFinal_frame (m : Record) (k : String)
    (hk1 : k ≠ "release_date") (hk3 : k ≠ "release_year") :
    (stepReleaseFinal m).get? k = m.get? k := by
  rcases stepReleaseFinal_shape m with heq | ⟨v, heq⟩
  · rw [heq, Record.get?_del_ne m _ k (Ne.symm hk3)]
  · rw [heq, Record.get?_del_ne _ _ k (Ne.symm hk3),
      Record.get?_set_ne m _ k v (Ne.symm hk1)]

theorem stepActors_WF (m m' : Record) (h : stepActors m = some m')
    (hwf : RecordWF m) : RecordWF m' := WF_of_setShape (stepActors_shape m m' h) hwf

theorem stepDirectors_WF (m m' : Record) (h : stepDirectors m = some m')
    (hwf : RecordWF m) : RecordWF m' :=
  WF_of_setShape (stepDirectors_shape m m' h) hwf

theorem stepScreenwriters_WF (m m' : Record) (h : stepScreenwriters m = some m')
    (hwf : RecordWF m) : RecordWF m' :=
  WF_of_setShape (stepScreenwriters_shape m m' h) hwf

theorem stepRating_WF (m : Record) (hwf : RecordWF m) : RecordWF (stepRating m) :=
  WF_of_setShape (stepRating_shape m) hwf

theorem stepPeople_WF (m m' : Record) (h : stepPeople m = some m')
    (hwf : RecordWF m) : RecordWF m' := by
  rcases stepPeople_shape m m' h with rfl | ⟨v, rfl⟩ | ⟨v, rfl⟩
  · exact hwf
  · exact Record.WF_set m _ v hwf
  · exact Record.WF_del _ _ (Record.WF_set m _ v hwf)

theorem stepMovieId_WF (m m' : Record) (h : stepMovieId m = some m')
    (hwf : RecordWF m) : RecordWF m' :=
  WF_of_setShape (stepMovieId_shape m m' h) hwf

theorem cleanRegionField_WF (key : String) (m m' : Record)
    (h : cleanRegionField key m = some m') (hwf : RecordWF m) : RecordWF m' := by
  rcases cleanRegionField_shape key m m' h with rfl | rfl
  · exact hwf
  · exact Record.WF_set m key _ hwf

theorem stepRelease_WF (m m' : Record) (h : stepRelease m = some m')
    (hwf : RecordWF m) : RecordWF m' := by
  rcases stepRelease_shape m m' h with rfl | ⟨v, rfl⟩ | ⟨v, rfl⟩ | rfl | ⟨v, rfl⟩
  · exact hwf
  · exact Record.WF_set m _ v hwf
  · exact Record.WF_del _ _ (Record.WF_set m _ v hwf)
  · exact Record.WF_del m _ hwf
  · exact Record.WF_del _ _ (Record.WF_set m _ v hwf)

theorem stepReleaseFinal_WF (m : Record) (hwf : RecordWF m) :
    RecordWF (stepReleaseFinal m) := by
  rcases stepReleaseFinal_shape m with heq | ⟨v, heq⟩
  · rw [heq]; exact Record.WF_del m _ hwf
  · rw [heq]; exact Record.WF_del _ _ (Record.WF_set m _ v hwf)

/-! ## Lemmas: the reorder step -/

theorem FIELD_ORDER_nodup : FIELD_ORDER.Nodup := by decide

theorem get?_filterMap_keys (L : List String) (hL : L.Nodup) (m : Record)
    (k : String) :
    Record.get? (L.filterMap (fun f => (m.get? f).map (fun v => (f, v)))) k =
      if k ∈ L then m.get? k else none := by
  induction L with
  | nil => simp
  | cons f L ih =>
    have hL' := List.nodup_cons.mp hL
    rw [List.filterMap_cons]
    by_cases hk : k = f
    · subst hk
      cases hf : m.get? k with
      | none =>
        simp only [Option.map_none']
        rw [ih hL'.2, if_neg hL'.1, if_pos (List.mem_cons_self k L)]
      | some v =>
        simp only [Option.map_some']
        rw [Record.get?_cons]
        simp
    · by_cases hkL : k ∈ L
      · cases hf : m.get? f with
        | none =>
          simp only [Option.map_none']
          rw [ih hL'.2, if_pos hkL, if_pos (by simp [hkL])]
        | some v =>
          simp only [Option.map_some']
          rw [Record.get?_cons, if_neg (fun he => hk he.symm), ih hL'.2,
            if_pos hkL, if_pos (by simp [hkL])]
      · cases hf : m.get? f with
        | none =>
          simp only [Option.map_none']
          rw [ih hL'.2, if_neg hkL, if_neg (by simp [hk, hkL])]
        | some v =>
          simp only [Option.map_some']
          rw [Record.get?_cons, if_neg (fun he => hk he.symm), ih hL'.2,
            if_neg hkL, if_neg (by simp [hk, hkL])]

theorem get?_filter_keyPred (pk : String → Bool) (m : Record) (k : String) :
    Record.get? (m.filter (fun kv => pk kv.1)) k =
      if pk k then m.get? k else none := by
  induction m with
  | nil => simp
  | cons kv m ih =>
    rw [List.filter_cons]
    by_cases hk : kv.1 = k
    · subst hk
      by_cases hpk : pk kv.1
      · rw [if_pos (by simpa using hpk), Record.get?_cons, if_pos rfl,
          if_pos hpk, Record.get?_cons, if_pos rfl]
      · rw [if_neg (by simpa using hpk), ih, if_neg hpk, if_neg hpk]
    · by_cases hpk : pk kv.1
      · rw [if_pos (by simpa using hpk), Record.get?_cons, if_neg hk, ih]
        by_cases hpkk : pk k
        · rw [if_pos hpkk, if_pos hpkk, Record.get?_cons, if_neg hk]
        · rw [if_neg hpkk, if_neg hpkk]
      · rw [if_neg (by simpa using hpk), ih]
        by_cases hpkk : pk k
        · rw [if_pos hpkk, if_pos hpkk, Record.get?_cons, if_neg hk]
        · rw [if_neg hpkk, if_neg hpkk]

/-- Reordering never changes a lookup. -/
theorem reorder_get? (m : Record) (k : String) : (reorder m).get? k = m.get? k := by
  unfold reorder
  rw [Record.get?_append, get?_filterMap_keys _ FIELD_ORDER_nodup,
    get?_filter_keyPred (fun x => !FIELD_ORDER.contains x) m k]
  by_cases hk : k ∈ FIELD_ORDER
  · rw [if_pos hk]
    cases hg : m.get? k with
    | some v => simp
    | none =>
      simp only []
      rw [if_neg (by simpa using hk)]
  · rw [if_neg hk]
    simp only []
    rw [if_pos (by simpa using hk)]

theorem keys_filterMap_get (L : List String) (m : Record) :
    (L.filterMap (fun f => (m.get? f).map (fun v => (f, v)))).map Prod.fst =
      L.filter (fun f => m.hasKey f) := by
  induction L with
  | nil => rfl
  | cons f L ih =>
    rw [List.filterMap_cons, List.filter_cons]
    cases hf : m.get? f with
    | none =>
      have hkey : m.hasKey f = false := by simp [Record.hasKey, hf]
      simp [hkey, ih]
    | some v =>
      have hkey : m.hasKey f = true := by simp [Record.hasKey, hf]
      simp [hkey, ih]

theorem reorder_WF (m : Record) (hwf : RecordWF m) : RecordWF (reorder m) := by
  unfold RecordWF reorder
  rw [List.map_append, List.nodup_append, keys_filterMap_get]
  refine ⟨(List.filter_sublist _).nodup FIELD_ORDER_nodup,
    ((m.filter_sublist).map Prod.fst).nodup hwf, ?_⟩
  intro a ha hb
  have haFO : a ∈ FIELD_ORDER := List.mem_of_mem_filter ha
  obtain ⟨kv, hkv, rfl⟩ := List.mem_map.mp hb
  have h4 := List.of_mem_filter hkv
  simp only [Bool.not_eq_true'] at h4
  have h5 : kv.1 ∉ FIELD_ORDER := by simpa using h4
  exact h5 haFO

/-- Reordering an already-reordered record does nothing. -/
theorem reorder_reorder (m : Record) : reorder (reorder m) = reorder m := by
  have h1 : FIELD_ORDER.filterMap (fun f => ((reorder m).get? f).map (fun v => (f, v))) =
      FIELD_ORDER.filterMap (fun f => (m.get? f).map (fun v => (f, v))) := by
    apply List.filterMap_congr
    intro f _
    rw [reorder_get?]
  show FIELD_ORDER.filterMap _ ++ (reorder m).filter _ = _
  rw [h1]
  unfold reorder
  rw [List.filter_append]
  have h2 : (FIELD_ORDER.filterMap (fun f => (m.get? f).map (fun v => (f, v)))).filter
      (fun kv => !FIELD_ORDER.contains kv.1) = [] := by
    rw [List.filter_eq_nil_iff]
    intro kv hkv
    obtain ⟨f, hf, hkv'⟩ := List.mem_filterMap.mp hkv
    cases hm : m.get? f with
    | none => rw [hm] at hkv'; simp at hkv'
    | some v =>
      rw [hm] at hkv'
      simp only [Option.map_some'] at hkv'
      cases hkv'
      simp only [Bool.not_eq_true']
      simpa using hf
  have h3 : (m.filter (fun kv => !FIELD_ORDER.contains kv.1)).filter
      (fun kv => !FIELD_ORDER.contains kv.1) =
      m.filter (fun kv => !FIELD_ORDER.contains kv.1) := by
    rw [List.filter_eq_self]
    intro kv hkv
    exact (List.mem_filter.mp hkv).2
  rw [h2, h3, List.nil_append]

/-! ## Lemmas: membership facts for split parts -/

theorem splitChar_mem_no_sep (sep : Char) :
    ∀ (l : List Char), ∀ g ∈ splitChar sep l, sep ∉ g := by
  intro l
  induction l with
  | nil =>
    intro g hg
    simp only [splitChar, List.mem_singleton] at hg
    simp [hg]
  | cons c cs ih =>
    intro g hg
    rw [splitChar] at hg
    by_cases hc : c = sep
    · rw [if_pos hc] at hg
      rcases List.mem_cons.mp hg with rfl | hg'
      · simp
      · exact ih g hg'
    · rw [if_neg hc] at hg
      cases hs : splitChar sep cs with
      | nil => exact absurd hs (splitChar_ne_nil sep cs)
      | cons g0 gs =>
        rw [hs] at hg
        rcases List.mem_cons.mp hg with rfl | hg'
        · intro hmem
          rcases List.mem_cons.mp hmem with heq | hmem'
          · exact hc heq.symm
          · exact ih g0 (hs ▸ List.mem_cons_self g0 gs) hmem'
        · exact ih g (hs ▸ List.mem_cons_of_mem g0 hg')

theorem mem_trimChars (l : List Char) (c : Char) (h : c ∈ trimChars l) : c ∈ l := by
  rw [trimChars_eq_rdropWhile] at h
  have h1 : c ∈ l.dropWhile Char.isWhitespace :=
    (@List.rdropWhile_prefix _ Char.isWhitespace _).sublist.subset h
  exact (List.dropWhile_sublist _).subset h1

theorem splitTrimFilter_good (s : String) :
    ∀ t ∈ splitTrimFilter s, GoodPart t.data := by
  intro t ht
  unfold splitTrimFilter at ht
  obtain ⟨q, hq, rfl⟩ := List.mem_map.mp ht
  have hq1 := List.mem_filter.mp hq
  obtain ⟨g, hg, rfl⟩ := List.mem_map.mp hq1.1
  refine ⟨by simpa using hq1.2, ?_, ?_⟩
  · intro hmem
    exact splitChar_mem_no_sep ',' s.data g hg (mem_trimChars g ',' hmem)
  · exact trimChars_idem g

/-! ## Normal forms guaranteed by each normalize step -/

/-- `actors` after step 3: absent, falsy, an all-separator string, or a
`', '`-join of at most five clean names. -/
def actorsNF : Option Value → Prop
  | none => True
  | some v => truthy v = false ∨ ∃ s, v = vStr s ∧
      (splitTrimFilter s = [] ∨ ∃ l, l ≠ [] ∧ l.length ≤ 5 ∧
        (∀ x ∈ l, GoodPart x.data) ∧ s = joinCommaSpace l)

/-- `directors`/`screenwriters` after steps 4/5: absent, falsy, an
all-separator string, or one clean name. -/
def oneNameNF : Option Value → Prop
  | none => True
  | some v => truthy v = false ∨ ∃ s, v = vStr s ∧
      (splitTrimFilter s = [] ∨ GoodPart s.data)

/-- `rating` after step 9.5: present, and a float whenever truthy. -/
def ratingNF : Option Value → Prop
  | none => False
  | some v => truthy v = false ∨ ∃ q, v = vFloat q

/-- present and never a string (`total_ratings` after step 10). -/
def nonStrNF : Option Value → Prop
  | none => False
  | some v => ∀ s, v ≠ vStr s

/-- absent or falsy. -/
def falsyNF : Option Value → Prop
  | none => True
  | some v => truthy v = false

/-- present and an int (`movie_id` after step 10.5). -/
def intNF : Option Value → Prop
  | none => False
  | some v => ∃ n, v = vInt n

/-- `countries`/`languages` after step 11: absent, falsy, or passing
the mis-parse test. -/
def regionNF : Option Value → Prop
  | none => True
  | some v => truthy v = false ∨ regionBad v = some false

/-- absent or not an int (`release_date` after the final step). -/
def nonIntNF : Option Value → Prop
  | none => True
  | some v => ∀ n, v ≠ vInt n

/-- The keys `normalize_movie_data` unconditionally deletes (plus
`release_year`, deleted at the end of step 12). -/
def NORMALIZE_DELETED : List String :=
  ["rank", "other_titles", "also_known_as", "rating_5star", "rating_4star",
   "rating_3star", "rating_2star", "rating_1star", "quote", "info", "category",
   "rating_detail", "release_year"]

/-- Everything `normalize_movie_data` guarantees about its output. -/
def PostNF (m : Record) : Prop :=
  (∀ k ∈ NORMALIZE_DELETED, m.get? k = none) ∧
  actorsNF (m.get? "actors") ∧ oneNameNF (m.get? "directors") ∧
  oneNameNF (m.get? "screenwriters") ∧ ratingNF (m.get? "rating") ∧
  falsyNF (m.get? "people") ∧ nonStrNF (m.get? "total_ratings") ∧
  intNF (m.get? "movie_id") ∧ regionNF (m.get? "countries") ∧
  regionNF (m.get? "languages") ∧ falsyNF (m.get? "release_dates") ∧
  nonIntNF (m.get? "release_date")

theorem stepActors_post (m m' : Record) (h : stepActors m = some m') :
    actorsNF (m'.get? "actors") := by
  unfold stepActors at h
  split at h
  next v heq =>
    split at h
    next htr =>
      split at h
      next s =>
        split at h
        next hemp =>
          injection h with h'
          subst h'
          rw [heq]
          exact Or.inr ⟨s, rfl, Or.inl (by simpa using hemp)⟩
        next hemp =>
          injection h with h'
          subst h'
          rw [Record.get?_set_self]
          refine Or.inr ⟨_, rfl, Or.inr ⟨(splitTrimFilter s).take 5, ?_, ?_, ?_, rfl⟩⟩
          · intro hcon
            have : splitTrimFilter s = [] := by
              cases hx : splitTrimFilter s with
              | nil => rfl
              | cons a b => rw [hx] at hcon; simp at hcon
            exact hemp (by simp [this])
          · exact (List.length_take _ _).le.trans (by simp)
          · intro x hx
            exact splitTrimFilter_good s x (List.mem_of_mem_take hx)
      next hnotstr => exact absurd h (by simp)
    next htr =>
      injection h with h'
      subst h'
      rw [heq]
      exact Or.inl (by simpa using htr)
  next heq =>
    injection h with h'
    subst h'
    rw [heq]
    trivial

theorem stepDirectors_post (m m' : Record) (h : stepDirectors m = some m') :
    oneNameNF (m'.get? "directors") := by
  unfold stepDirectors at h
  split at h
  next v heq =>
    split at h
    next htr =>
      split at h
      next s =>
        split at h
        next d rest hsp =>
          injection h with h'
          subst h'
          rw [Record.get?_set_self]
          exact Or.inr ⟨d, rfl, Or.inr
            (splitTrimFilter_good s d (hsp ▸ List.mem_cons_self d rest))⟩
        next hsp =>
          injection h with h'
          subst h'
          rw [heq]
          exact Or.inr ⟨s, rfl, Or.inl hsp⟩
      next hnotstr => exact absurd h (by simp)
    next htr =>
      injection h with h'
      subst h'
      rw [heq]
      exact Or.inl (by simpa using htr)
  next heq =>
    injection h with h'
    subst h'
    rw [heq]
    trivial

theorem stepScreenwriters_post (m m' : Record) (h : stepScreenwriters m = some m') :
    oneNameNF (m'.get? "screenwriters") := by
  unfold stepScreenwriters at h
  split at h
  next v heq =>
    split at h
    next htr =>
      split at h
      next s =>
        split at h
        next d rest hsp =>
          injection h with h'
          subst h'
          rw [Record.get?_set_self]
          exact Or.inr ⟨d, rfl, Or.inr
            (splitTrimFilter_good s d (hsp ▸ List.mem_cons_self d rest))⟩
        next hsp =>
          injection h with h'
          subst h'
          rw [heq]
          exact Or.inr ⟨s, rfl, Or.inl hsp⟩
      next hnotstr => exact absurd h (by simp)
    next htr =>
      injection h with h'
      subst h'
      rw [heq]
      exact Or.inl (by simpa using htr)
  next heq =>
    injection h with h'
    subst h'
    rw [heq]
    trivial

theorem stepRating_post (m : Record) : ratingNF ((stepRating m).get? "rating") := by
  unfold stepRating
  split
  next v heq =>
    split
    next htr =>
      split
      · rw [Record.get?_set_self]
        exact Or.inr ⟨pfZero, rfl⟩
      · rw [Record.get?_set_self]
        exact Or.inr ⟨_, rfl⟩
    next htr =>
      rw [heq]
      exact Or.inl (by simpa using htr)
  next heq =>
    rw [Record.get?_set_self]
    exact Or.inr ⟨pfZero, rfl⟩

theorem totalRatingsElif_post (m : Record) :
    nonStrNF ((totalRatingsElif m).get? "total_ratings") := by
  unfold totalRatingsElif
  split
  · rw [Record.get?_set_self]
    intro s hcon
    exact Value.noConfusion hcon
  next ts heq =>
    rw [Record.get?_set_self]
    intro s hcon
    exact Value.noConfusion hcon
  next heq h2 =>
    rw [h2]
    intro s
    exact heq s

theorem stepPeople_post (m m' : Record) (h : stepPeople m = some m') :
    falsyNF (m'.get? "people") ∧ nonStrNF (m'.get? "total_ratings") := by
  unfold stepPeople at h
  split at h
  next pv heq =>
    split at h
    next htr =>
      split at h
      next s =>
        injection h with h'
        subst h'
        constructor
        · rw [Record.get?_del_self]
          trivial
        · rw [Record.get?_del_ne _ _ _ (by decide), Record.get?_set_self]
          intro s' hcon
          exact Value.noConfusion hcon
      next => exact absurd h (by simp)
    next htr =>
      injection h with h'
      subst h'
      constructor
      · have hfr : (totalRatingsElif m).get? "people" = m.get? "people" := by
          rcases totalRatingsElif_shape m with hsh | ⟨v, hsh⟩
          · rw [hsh]
          · rw [hsh, Record.get?_set_ne _ _ _ _ (by decide)]
        rw [hfr, heq]
        simpa using htr
      · exact totalRatingsElif_post m
  next heq =>
    injection h with h'
    subst h'
    constructor
    · have hfr : (totalRatingsElif m).get? "people" = m.get? "people" := by
        rcases totalRatingsElif_shape m with hsh | ⟨v, hsh⟩
        · rw [hsh]
        · rw [hsh, Record.get?_set_ne _ _ _ _ (by decide)]
      rw [hfr, heq]
      trivial
    · exact totalRatingsElif_post m

theorem stepMovieId_post (m m' : Record) (h : stepMovieId m = some m') :
    intNF (m'.get? "movie_id") := by
  unfold stepMovieId at h
  split at h
  · unfold deriveMovieIdFromLink at h
    split at h
    next lv heq =>
      split at h
      next htr =>
        split at h
        next link =>
          split at h
          next ds hscan =>
            injection h with h'
            subst h'
            rw [Record.get?_set_self]
            exact ⟨_, rfl⟩
          next hscan =>
            injection h with h'
            subst h'
            rw [Record.get?_set_self]
            exact ⟨0, rfl⟩
        next => exact absurd h (by simp)
      next htr =>
        injection h with h'
        subst h'
        rw [Record.get?_set_self]
        exact ⟨0, rfl⟩
    next heq =>
      injection h with h'
      subst h'
      rw [Record.get?_set_self]
      exact ⟨0, rfl⟩
  · split at h
    next s heq =>
      split at h
      · injection h with h'
        subst h'
        rw [Record.get?_set_self]
        exact ⟨0, rfl⟩
      · injection h with h'
        subst h'
        rw [Record.get?_set_self]
        exact ⟨_, rfl⟩
    next n heq =>
      injection h with h'
      subst h'
      rw [heq]
      exact ⟨n, rfl⟩
    next =>
      injection h with h'
      subst h'
      rw [Record.get?_set_self]
      exact ⟨0, rfl⟩

theorem cleanRegionField_post (key : String) (m m' : Record)
    (h : cleanRegionField key m = some m') : regionNF (m'.get? key) := by
  unfold cleanRegionField at h
  split at h
  next v heq =>
    split at h
    next htr =>
      split at h
      next hbad =>
        injection h with h'
        subst h'
        rw [Record.get?_set_self]
        exact Or.inl (by simp [truthy])
      next hbad =>
        injection h with h'
        subst h'
        rw [heq]
        exact Or.inr hbad
      next => exact absurd h (by simp)
    next htr =>
      injection h with h'
      subst h'
      rw [heq]
      exact Or.inl (by simpa using htr)
  next heq =>
    injection h with h'
    subst h'
    rw [heq]
    trivial

theorem releaseElse_frame_rd (m m' : Record) (h : releaseElse m = some m') :
    m'.get? "release_dates" = m.get? "release_dates" := by
  rcases releaseElse_shape m m' h with rfl | ⟨v, rfl⟩ | ⟨v, rfl⟩
  · rfl
  · exact Record.get?_set_ne _ _ _ _ (by decide)
  · rw [Record.get?_del_ne _ _ _ (by decide), Record.get?_set_ne _ _ _ _ (by decide)]

theorem stepRelease_post (m m' : Record) (h : stepRelease m = some m') :
    falsyNF (m'.get? "release_dates") := by
  unfold stepRelease at h
  split at h
  next rdv heq =>
    split at h
    next htr =>
      split at h
      next s =>
        injection h with h'
        subst h'
        rw [Record.get?_del_self]
        trivial
      next => exact absurd h (by simp)
    next htr =>
      rw [releaseElse_frame_rd m m' h, heq]
      simpa using htr
  next heq =>
    rw [releaseElse_frame_rd m m' h, heq]
    trivial

theorem stepReleaseFinal_post (m : Record) :
    nonIntNF ((stepReleaseFinal m).get? "release_date") ∧
      (stepReleaseFinal m).get? "release_year" = none := by
  constructor
  · unfold stepReleaseFinal
    split
    next n heq =>
      rw [Record.get?_del_ne _ _ _ (by decide), Record.get?_set_self]
      intro n' hcon
      exact Value.noConfusion hcon
    next hne =>
      rw [Record.get?_del_ne _ _ _ (by decide)]
      cases hg : m.get? "release_date" with
      | none => trivial
      | some v =>
        intro n hcon
        subst hcon
        exact hne n hg
  · unfold stepReleaseFinal
    split <;> rw [Record.get?_del_self]

/-! ## Lemmas: the delete chains and the normalize pipeline -/

theorem get?_delKeys (ks : List String) (m : Record) (k : String) :
    (delKeys ks m).get? k = if k ∈ ks then none else m.get? k := by
  induction ks generalizing m with
  | nil => simp [delKeys]
  | cons a ks ih =>
    show (delKeys ks (m.del a)).get? k = _
    rw [ih]
    by_cases hka : k = a
    · subst hka
      by_cases hks : k ∈ ks
      · rw [if_pos hks, if_pos (by simp)]
      · rw [if_neg hks, if_pos (by simp), Record.get?_del_self]
    · by_cases hks : k ∈ ks
      · rw [if_pos hks, if_pos (by simp [hks])]
      · rw [if_neg hks, if_neg (by simp [hka, hks]),
          Record.get?_del_ne _ _ _ (fun he => hka he.symm)]

theorem WF_delKeys (ks : List String) (m : Record) (hwf : RecordWF m) :
    RecordWF (delKeys ks m) := by
  induction ks generalizing m with
  | nil => exact hwf
  | cons a ks ih =>
    show RecordWF (delKeys ks (m.del a))
    exact ih _ (Record.WF_del m a hwf)

theorem normalize_decompose (r r' : Record) (h : normalize r = some r') :
    ∃ m2 m3 m4 m7 m8 m9 m10 m11,
      stepActors (preDels r) = some m2 ∧
      stepDirectors m2 = some m3 ∧
      stepScreenwriters m3 = some m4 ∧
      stepPeople (stepRating (midDels m4)) = some m7 ∧
      stepMovieId m7 = some m8 ∧
      cleanRegionField "countries" m8 = some m9 ∧
      cleanRegionField "languages" m9 = some m10 ∧
      stepRelease m10 = some m11 ∧
      r' = reorder (stepReleaseFinal m11) := by
  unfold normalize at h
  simp only [bind, Option.bind_eq_some, Option.pure_def, Option.some.injEq] at h
  obtain ⟨m2, h2, m3, h3, m4, h4, m7, h7, m8, h8, m9, h9, m10, h10, m11, h11, hr⟩ := h
  exact ⟨m2, m3, m4, m7, m8, m9, m10, m11, h2, h3, h4, h7, h8, h9, h10, h11, hr.symm⟩

theorem normalize_WF (r r' : Record) (hwf : RecordWF r) (h : normalize r = some r') :
    RecordWF r' := by
  obtain ⟨m2, m3, m4, m7, m8, m9, m10, m11, h2, h3, h4, h7, h8, h9, h10, h11, hr⟩ :=
    normalize_decompose r r' h
  subst hr
  exact reorder_WF _ (stepReleaseFinal_WF _ (stepRelease_WF _ _ h11
    (cleanRegionField_WF _ _ _ h10 (cleanRegionField_WF _ _ _ h9
      (stepMovieId_WF _ _ h8 (stepPeople_WF _ _ h7 (stepRating_WF _
        (WF_delKeys _ _ (stepScreenwriters_WF _ _ h4 (stepDirectors_WF _ _ h3
          (stepActors_WF _ _ h2 (WF_delKeys _ _ hwf))))))))))))

/-- Everything `normalize_movie_data` guarantees about a successful
output, plus the fact that the output is reorder-shaped. -/
theorem normalize_post (r r' : Record) (h : normalize r = some r') :
    PostNF r' ∧ ∃ z, r' = reorder z := by
  obtain ⟨m2, m3, m4, m7, m8, m9, m10, m11, h2, h3, h4, h7, h8, h9, h10, h11, hr⟩ :=
    normalize_decompose r r' h
  subst hr
  have frame9 : ∀ k, k ≠ "release_date" → k ≠ "release_dates" → k ≠ "release_year" →
      k ≠ "languages" → k ≠ "countries" → k ≠ "movie_id" → k ≠ "total_ratings" →
      k ≠ "people" → k ≠ "rating" →
      (reorder (stepReleaseFinal m11)).get? k = (midDels m4).get? k := by
    intro k n1 n2 n3 n4 n5 n6 n7 n8 n9
    rw [reorder_get?, stepReleaseFinal_frame _ _ n1 n3,
      stepRelease_frame _ _ h11 _ n1 n2 n3, cleanRegionField_frame _ _ _ h10 _ n4,
      cleanRegionField_frame _ _ _ h9 _ n5, stepMovieId_frame _ _ h8 _ n6,
      stepPeople_frame _ _ h7 _ n7 n8, stepRating_frame _ _ n9]
  have frame4 : ∀ k, k ∉ ["also_known_as", "rating_5star", "rating_4star",
      "rating_3star", "rating_2star", "rating_1star", "quote", "info", "category",
      "rating_detail"] → k ≠ "screenwriters" → k ≠ "directors" →
      (midDels m4).get? k = m2.get? k := by
    intro k hn d1 d2
    show (delKeys _ m4).get? k = _
    rw [get?_delKeys, if_neg hn, stepScreenwriters_frame _ _ h4 _ d1,
      stepDirectors_frame _ _ h3 _ d2]
  refine ⟨⟨?_, ?_, ?_, ?_, ?_, ?_, ?_, ?_, ?_, ?_, ?_, ?_⟩, _, rfl⟩
  · -- the deleted keys
    intro k hk
    simp only [NORMALIZE_DELETED, List.mem_cons, List.not_mem_nil, or_false] at hk
    rcases hk with rfl | rfl | rfl | rfl | rfl | rfl | rfl | rfl | rfl | rfl | rfl | rfl | rfl
    · -- rank
      rw [frame9 _ (by decide) (by decide) (by decide) (by decide) (by decide)
          (by decide) (by decide) (by decide) (by decide),
        frame4 _ (by decide) (by decide) (by decide),
        stepActors_frame _ _ h2 _ (by decide)]
      show (delKeys _ r).get? _ = none
      rw [get?_delKeys, if_pos (by decide)]
    · -- other_titles
      rw [frame9 _ (by decide) (by decide) (by decide) (by decide) (by decide)
          (by decide) (by decide) (by decide) (by decide),
        frame4 _ (by decide) (by decide) (by decide),
        stepActors_frame _ _ h2 _ (by decide)]
      show (delKeys _ r).get? _ = none
      rw [get?_delKeys, if_pos (by decide)]
    · -- also_known_as
      rw [frame9 _ (by decide) (by decide) (by decide) (by decide) (by decide)
          (by decide) (by decide) (by decide) (by decide)]
      show (delKeys _ m4).get? _ = none
      rw [get?_delKeys, if_pos (by decide)]
    · rw [frame9 _ (by decide) (by decide) (by decide) (by decide) (by decide)
          (by decide) (by decide) (by decide) (by decide)]
      show (delKeys _ m4).get? _ = none
      rw [get?_delKeys, if_pos (by decide)]
    · rw [frame9 _ (by decide) (by decide) (by decide) (by decide) (by decide)
          (by decide) (by decide) (by decide) (by decide)]
      show (delKeys _ m4).get? _ = none
      rw [get?_delKeys, if_pos (by decide)]
    · rw [frame9 _ (by decide) (by decide) (by decide) (by decide) (by decide)
          (by decide) (by decide) (by decide) (by decide)]
      show (delKeys _ m4).get? _ = none
      rw [get?_delKeys, if_pos (by decide)]
    · rw [frame9 _ (by decide) (by decide) (by decide) (by decide) (by decide)
          (by decide) (by decide) (by decide) (by decide)]
      show (delKeys _ m4).get? _ = none
      rw [get?_delKeys, if_pos (by decide)]
    · rw [frame9 _ (by decide) (by decide) (by decide) (by decide) (by decide)
          (by decide) (by decide) (by decide) (by decide)]
      show (delKeys _ m4).get? _ = none
      rw [get?_delKeys, if_pos (by decide)]
    · rw [frame9 _ (by decide) (by decide) (by decide) (by decide) (by decide)
          (by decide) (by decide) (by decide) (by decide)]
      show (delKeys _ m4).get? _ = none
      rw [get?_delKeys, if_pos (by decide)]
    · rw [frame9 _ (by decide) (by decide) (by decide) (by decide) (by decide)
          (by decide) (by decide) (by decide) (by decide)]
      show (delKeys _ m4).get? _ = none
      rw [get?_delKeys, if_pos (by decide)]
    · rw [frame9 _ (by decide) (by decide) (by decide) (by decide) (by decide)
          (by decide) (by decide) (by decide) (by decide)]
      show (delKeys _ m4).get? _ = none
      rw [get?_delKeys, if_pos (by decide)]
    · rw [frame9 _ (by decide) (by decide) (by decide) (by decide) (by decide)
          (by decide) (by decide) (by decide) (by decide)]
      show (delKeys _ m4).get? _ = none
      rw [get?_delKeys, if_pos (by decide)]
    · -- release_year
      rw [reorder_get?]
      exact (stepReleaseFinal_post m11).2
  · -- actors
    rw [frame9 _ (by decide) (by decide) (by decide) (by decide) (by decide)
        (by decide) (by decide) (by decide) (by decide),
      frame4 _ (by decide) (by decide) (by decide)]
    exact stepActors_post _ _ h2
  · -- directors
    rw [frame9 _ (by decide) (by decide) (by decide) (by decide) (by decide)
        (by decide) (by decide) (by decide) (by decide)]
    show oneNameNF ((delKeys _ m4).get? _)
    rw [get?_delKeys, if_neg (by decide), stepScreenwriters_frame _ _ h4 _ (by decide)]
    exact stepDirectors_post _ _ h3
  · -- screenwriters
    rw [frame9 _ (by decide) (by decide) (by decide) (by decide) (by decide)
        (by decide) (by decide) (by decide) (by decide)]
    show oneNameNF ((delKeys _ m4).get? _)
    rw [get?_delKeys, if_neg (by decide)]
    exact stepScreenwriters_post _ _ h4
  · -- rating
    rw [reorder_get?, stepReleaseFinal_frame _ _ (by decide) (by decide),
      stepRelease_frame _ _ h11 _ (by decide) (by decide) (by decide),
      cleanRegionField_frame _ _ _ h10 _ (by decide),
      cleanRegionField_frame _ _ _ h9 _ (by decide),
      stepMovieId_frame _ _ h8 _ (by decide),
      stepPeople_frame _ _ h7 _ (by decide) (by decide)]
    exact stepRating_post _
  · -- people
    rw [reorder_get?, stepReleaseFinal_frame _ _ (by decide) (by decide),
      stepRelease_frame _ _ h11 _ (by decide) (by decide) (by decide),
      cleanRegionField_frame _ _ _ h10 _ (by decide),
      cleanRegionField_frame _ _ _ h9 _ (by decide),
      stepMovieId_frame _ _ h8 _ (by decide)]
    exact (stepPeople_post _ _ h7).1
  · -- total_ratings
    rw [reorder_get?, stepReleaseFinal_frame _ _ (by decide) (by decide),
      stepRelease_frame _ _ h11 _ (by decide) (by decide) (by decide),
      cleanRegionField_frame _ _ _ h10 _ (by decide),
      cleanRegionField_frame _ _ _ h9 _ (by decide),
      stepMovieId_frame _ _ h8 _ (by decide)]
    exact (stepPeople_post _ _ h7).2
  · -- movie_id
    rw [reorder_get?, stepReleaseFinal_frame _ _ (by decide) (by decide),
      stepRelease_frame _ _ h11 _ (by decide) (by decide) (by decide),
      cleanRegionField_frame _ _ _ h10 _ (by decide),
      cleanRegionField_frame _ _ _ h9 _ (by decide)]
    exact stepMovieId_post _ _ h8
  · -- countries
    rw [reorder_get?, stepReleaseFinal_frame _ _ (by decide) (by decide),
      stepRelease_frame _ _ h11 _ (by decide) (by decide) (by decide),
      cleanRegionField_frame _ _ _ h10 _ (by decide)]
    exact cleanRegionField_post _ _ _ h9
  · -- languages
    rw [reorder_get?, stepReleaseFinal_frame _ _ (by decide) (by decide),
      stepRelease_frame _ _ h11 _ (by decide) (by decide) (by decide)]
    exact cleanRegionField_post _ _ _ h10
  · -- release_dates
    rw [reorder_get?, stepReleaseFinal_frame _ _ (by decide) (by decide)]
    exact stepRelease_post _ _ h11
  · -- release_date
    rw [reorder_get?]
    exact (stepReleaseFinal_post m11).1

/-! ## Lemmas: normalize is the identity (up to reorder) on its own
normal forms -/

/-- `str(f)` is nonempty and has nothing to strip. -/
theorem floatRepr_clean (p : PyFloat) :
    pyStrip (floatRepr p) = floatRepr p ∧ floatRepr p ≠ "" := by
  obtain ⟨⟨m, e⟩, hc⟩ := p
  have hds : ∀ d ∈ digitsBE m.natAbs, d < 10 := digitsBE_lt m.natAbs
  set ds := digitsBE m.natAbs with hds_def
  set pad : List Nat := List.replicate (e + 1 - ds.length) 0 ++ ds with hpad_def
  have hpadlt : ∀ d ∈ pad, d < 10 := by
    intro d hd
    rcases List.mem_append.mp hd with h1 | h2
    · have := List.eq_of_mem_replicate h1
      omega
    · exact hds d h2
  set k : Nat := pad.length - e with hk_def
  set fds : List Nat := if e = 0 then [0] else pad.drop k with hfds_def
  have hfdslt : ∀ d ∈ fds, d < 10 := by
    intro d hd
    rw [hfds_def] at hd
    by_cases he : e = 0
    · rw [if_pos he] at hd
      simp at hd
      omega
    · rw [if_neg he] at hd
      exact hpadlt d (List.mem_of_mem_drop hd)
  have hrepr : (floatRepr ⟨(m, e), hc⟩).data =
      (if decide (m < 0) then ['-'] else []) ++ (pad.take k).map digitChar ++
        '.' :: fds.map digitChar := by
    have hfrep : (if e = 0 then ['0'] else (pad.drop k).map digitChar) =
        fds.map digitChar := by
      by_cases he : e = 0
      · rw [hfds_def, if_pos he, if_pos he]
        rfl
      · rw [hfds_def, if_neg he, if_neg he]
    show (if m < 0 then ['-'] else []) ++ (pad.take k).map digitChar ++ ['.'] ++
        (if e = 0 then ['0'] else (pad.drop k).map digitChar) = _
    rw [hfrep]
    by_cases hm : m < 0 <;>
      simp [hm, List.append_assoc]
  have hws : ∀ c ∈ (floatRepr ⟨(m, e), hc⟩).data, c.isWhitespace = false := by
    intro c hcm
    rw [hrepr] at hcm
    simp only [List.append_assoc, List.mem_append, List.mem_cons] at hcm
    rcases hcm with h1 | h2 | h3 | h4
    · by_cases hm : m < 0
      · rw [if_pos (by simpa using hm)] at h1
        simp at h1
        subst h1
        decide
      · rw [if_neg (by simpa using hm)] at h1
        simp at h1
    · obtain ⟨d, hd, rfl⟩ := List.mem_map.mp h2
      exact (digitChar_spec d (hpadlt d (List.mem_of_mem_take hd))).2.2.1
    · subst h3
      decide
    · obtain ⟨d, hd, rfl⟩ := List.mem_map.mp h4
      exact (digitChar_spec d (hfdslt d hd)).2.2.1
  constructor
  · show String.mk (trimChars (floatRepr ⟨(m, e), hc⟩).data) = _
    rw [trimChars_eq_self _ hws]
  · intro hcon
    have hnil : (floatRepr ⟨(m, e), hc⟩).data = [] := by
      rw [hcon]
    rw [hrepr] at hnil
    simp at hnil

/-- A single clean name splits back to itself. -/
theorem splitTrimFilter_single (s : String) (h : GoodPart s.data) :
    splitTrimFilter s = [s] := by
  unfold splitTrimFilter
  rw [splitChar_no_sep ',' s.data h.2.1]
  simp only [List.map_cons, List.map_nil]
  rw [h.2.2, List.filter_cons, if_pos (by simpa using h.1)]
  rfl

/-- Deleting keys that are already absent changes nothing. -/
theorem delKeys_fix (ks : List String) (m : Record)
    (h : ∀ k ∈ ks, m.get? k = none) : delKeys ks m = m := by
  induction ks with
  | nil => rfl
  | cons k ks ih =>
    show delKeys ks (m.del k) = m
    rw [Record.del_of_get?_none m k (h k (by simp))]
    exact ih (fun k' hk' => h k' (by simp [hk']))

theorem stepActors_fix (m : Record) (hwf : RecordWF m)
    (h : actorsNF (m.get? "actors")) : stepActors m = some m := by
  unfold stepActors
  cases hg : m.get? "actors" with
  | none => rfl
  | some v =>
    rw [hg] at h
    change (if truthy v = true then _ else some m) = some m
    rcases h with hf | ⟨s, rfl, hs⟩
    · rw [hf]
      rfl
    · by_cases ht : truthy (vStr s) = true
      · rw [if_pos ht]
        change (if (splitTrimFilter s).isEmpty = true then some m else
          some (m.set "actors"
            (vStr (joinCommaSpace ((splitTrimFilter s).take 5))))) = some m
        rcases hs with hemp | ⟨l, hne, hlen, hgood, rfl⟩
        · rw [hemp]
          rfl
        · rw [splitTrimFilter_join l hgood, if_neg (by simp [hne]),
            List.take_of_length_le hlen,
            Record.set_of_get?_eq m "actors" _ hwf hg]
      · rw [if_neg ht]

theorem stepDirectors_fix (m : Record) (hwf : RecordWF m)
    (h : oneNameNF (m.get? "directors")) : stepDirectors m = some m := by
  unfold stepDirectors
  cases hg : m.get? "directors" with
  | none => rfl
  | some v =>
    rw [hg] at h
    change (if truthy v = true then _ else some m) = some m
    rcases h with hf | ⟨s, rfl, hs⟩
    · rw [hf]
      rfl
    · by_cases ht : truthy (vStr s) = true
      · rw [if_pos ht]
        change (match splitTrimFilter s with
          | d :: _ => some (m.set "directors" (vStr d))
          | [] => some m) = some m
        rcases hs with hemp | hgp
        · rw [hemp]
        · rw [splitTrimFilter_single s hgp]
          show some (m.set "directors" (vStr s)) = some m
          rw [Record.set_of_get?_eq m "directors" _ hwf hg]
      · rw [if_neg ht]

theorem stepScreenwriters_fix (m : Record) (hwf : RecordWF m)
    (h : oneNameNF (m.get? "screenwriters")) : stepScreenwriters m = some m := by
  unfold stepScreenwriters
  cases hg : m.get? "screenwriters" with
  | none => rfl
  | some v =>
    rw [hg] at h
    change (if truthy v = true then _ else some m) = some m
    rcases h with hf | ⟨s, rfl, hs⟩
    · rw [hf]
      rfl
    · by_cases ht : truthy (vStr s) = true
      · rw [if_pos ht]
        change (match splitTrimFilter s with
          | d :: _ => some (m.set "screenwriters" (vStr d))
          | [] => some m) = some m
        rcases hs with hemp | hgp
        · rw [hemp]
        · rw [splitTrimFilter_single s hgp]
          show some (m.set "screenwriters" (vStr s)) = some m
          rw [Record.set_of_get?_eq m "screenwriters" _ hwf hg]
      · rw [if_neg ht]

theorem stepRating_fix (m : Record) (hwf : RecordWF m)
    (h : ratingNF (m.get? "rating")) : stepRating m = m := by
  unfold stepRating
  cases hg : m.get? "rating" with
  | none =>
    rw [hg] at h
    exact False.elim h
  | some v =>
    rw [hg] at h
    change (if truthy v = true then _ else m) = m
    rcases h with hf | ⟨q, rfl⟩
    · rw [hf]
      rfl
    · by_cases ht : truthy (vFloat q) = true
      · rw [if_pos ht]
        have hclean := floatRepr_clean q
        show (if pyStrip (floatRepr q) = "" then m.set "rating" (vFloat pfZero)
          else m.set "rating"
            (vFloat ((parseFloat (pyStrip (floatRepr q))).getD pfZero))) = m
        rw [hclean.1, if_neg hclean.2, parseFloat_floatRepr]
        show m.set "rating" (vFloat q) = m
        exact Record.set_of_get?_eq m "rating" _ hwf hg
      · rw [if_neg ht]

theorem stepPeople_fix (m : Record) (hp : falsyNF (m.get? "people"))
    (ht : nonStrNF (m.get? "total_ratings")) : stepPeople m = some m := by
  have helif : totalRatingsElif m = m := by
    unfold totalRatingsElif
    cases hg : m.get? "total_ratings" with
    | none =>
      rw [hg] at ht
      exact False.elim ht
    | some v =>
      rw [hg] at ht
      cases v with
      | vStr s => exact absurd rfl (ht s)
      | vInt n => rfl
      | vFloat q => rfl
      | vNone => rfl
      | vList l => rfl
      | vDict d => rfl
  unfold stepPeople
  cases hpg : m.get? "people" with
  | none =>
    show some (totalRatingsElif m) = some m
    rw [helif]
  | some pv =>
    rw [hpg] at hp
    have hp' : truthy pv = false := hp
    change (if truthy pv = true then _ else some (totalRatingsElif m)) = some m
    rw [hp']
    show some (totalRatingsElif m) = some m
    rw [helif]

theorem stepMovieId_fix (m : Record) (hwf : RecordWF m)
    (hi : intNF (m.get? "movie_id"))
    (hlink : truthyAt m "movie_id" = true ∨
      deriveMovieIdFromLink m = some (m.set "movie_id" (vInt 0))) :
    stepMovieId m = some m := by
  unfold stepMovieId
  by_cases ht : truthyAt m "movie_id" = true
  · rw [if_neg (not_not_intro ht)]
    cases hg : m.get? "movie_id" with
    | none =>
      rw [hg] at hi
      exact False.elim hi
    | some v =>
      rw [hg] at hi
      obtain ⟨n, rfl⟩ := hi
      rfl
  · rw [if_pos ht]
    rcases hlink with h1 | h2
    · exact absurd h1 ht
    · rw [h2]
      cases hg : m.get? "movie_id" with
      | none =>
        rw [hg] at hi
        exact False.elim hi
      | some v =>
        rw [hg] at hi
        obtain ⟨n, rfl⟩ := hi
        have hn : n = 0 := by
          unfold truthyAt at ht
          rw [hg] at ht
          simp [truthy] at ht
          exact ht
        subst hn
        rw [Record.set_of_get?_eq m "movie_id" (vInt 0) hwf hg]

theorem cleanRegionField_fix (key : String) (m : Record)
    (h : regionNF (m.get? key)) : cleanRegionField key m = some m := by
  unfold cleanRegionField
  cases hg : m.get? key with
  | none => rfl
  | some v =>
    rw [hg] at h
    change (if truthy v = true then _ else some m) = some m
    rcases h with hf | hok
    · rw [hf]
      rfl
    · by_cases ht : truthy v = true
      · rw [if_pos ht]
        change (match regionBad v with
          | some true => some (m.set key (vStr ""))
          | some false => some m
          | none => none) = some m
        rw [hok]
      · rw [if_neg ht]

theorem stepRelease_fix (m : Record) (hrd : falsyNF (m.get? "release_dates"))
    (hry : m.get? "release_year" = none) (hinfo : m.get? "info" = none) :
    stepRelease m = some m := by
  have hiy : infoYearBranch m = some m := by
    unfold infoYearBranch
    rw [hinfo]
  have helse : releaseElse m = some m := by
    unfold releaseElse
    by_cases ht : truthyAt m "release_date" = true
    · rw [if_neg (not_not_intro ht)]
    · rw [if_pos ht, hry]
      exact hiy
  unfold stepRelease
  cases hg : m.get? "release_dates" with
  | none => exact helse
  | some rdv =>
    rw [hg] at hrd
    have hrd' : truthy rdv = false := hrd
    change (if truthy rdv = true then _ else releaseElse m) = some m
    rw [hrd']
    show releaseElse m = some m
    exact helse

theorem stepReleaseFinal_fix (m : Record) (hrd : nonIntNF (m.get? "release_date"))
    (hry : m.get? "release_year" = none) : stepReleaseFinal m = m := by
  unfold stepReleaseFinal
  cases hg : m.get? "release_date" with
  | none => exact Record.del_of_get?_none m _ hry
  | some v =>
    rw [hg] at hrd
    cases v with
    | vInt n => exact absurd rfl (hrd n)
    | vStr s => exact Record.del_of_get?_none m _ hry
    | vFloat q => exact Record.del_of_get?_none m _ hry
    | vNone => exact Record.del_of_get?_none m _ hry
    | vList l => exact Record.del_of_get?_none m _ hry
    | vDict d => exact Record.del_of_get?_none m _ hry

/-- On a record already in post-normalize normal form whose `movie_id`
would not be re-derived differently from `link`, the whole pipeline
only replays the final reorder. -/
theorem normalize_fix (m : Record) (hwf : RecordWF m) (hpost : PostNF m)
    (hmid : truthyAt m "movie_id" = true ∨
      deriveMovieIdFromLink m = some (m.set "movie_id" (vInt 0))) :
    normalize m = some (reorder m) := by
  obtain ⟨hdel, hact, hdir, hscr, hrat, hppl, htr, hmov, hcty, hlang, hrd, hrdt⟩ := hpost
  have h1 : preDels m = m := by
    apply delKeys_fix
    intro k hk
    simp only [List.mem_cons, List.not_mem_nil, or_false] at hk
    rcases hk with rfl | rfl
    · exact hdel _ (by decide)
    · exact hdel _ (by decide)
  have h5 : midDels m = m := by
    apply delKeys_fix
    intro k hk
    simp only [List.mem_cons, List.not_mem_nil, or_false] at hk
    rcases hk with rfl | rfl | rfl | rfl | rfl | rfl | rfl | rfl | rfl | rfl
    all_goals exact hdel _ (by decide)
  have h2 : stepActors m = some m := stepActors_fix m hwf hact
  have h3 : stepDirectors m = some m := stepDirectors_fix m hwf hdir
  have h4 : stepScreenwriters m = some m := stepScreenwriters_fix m hwf hscr
  have h6 : stepRating m = m := stepRating_fix m hwf hrat
  have h7 : stepPeople m = some m := stepPeople_fix m hppl htr
  have h8 : stepMovieId m = some m := stepMovieId_fix m hwf hmov hmid
  have h9c : cleanRegionField "countries" m = some m := cleanRegionField_fix _ m hcty
  have h9l : cleanRegionField "languages" m = some m := cleanRegionField_fix _ m hlang
  have h11 : stepRelease m = some m :=
    stepRelease_fix m hrd (hdel _ (by decide)) (hdel _ (by decide))
  have h12 : stepReleaseFinal m = m := stepReleaseFinal_fix m hrdt (hdel _ (by decide))
  unfold normalize
  rw [h1, h2]
  show (stepDirectors m).bind _ = _
  rw [h3]
  show (stepScreenwriters m).bind _ = _
  rw [h4]
  show (stepPeople (stepRating (midDels m))).bind _ = _
  rw [h5, h6, h7]
  show (stepMovieId m).bind _ = _
  rw [h8]
  show (cleanRegionField "countries" m).bind _ = _
  rw [h9c]
  show (cleanRegionField "languages" m).bind _ = _
  rw [h9l]
  show (stepRelease m).bind _ = _
  rw [h11]
  show some (reorder (stepReleaseFinal m)) = _
  rw [h12]

/-! ## The claims -/

/-- C2: the spec says a present-but-falsy `rating` (the empty string)
is coerced to `0.0`; the code's step 9.5 has no `else` on its truthiness
test, so the empty string survives normalization unchanged — the output
`rating` is `""`, not a float. -/
theorem claim_C2_rating_empty_string_kept :
    normalize [("rating", vStr "")] =
      some [("movie_id", vInt 0), ("rating", vStr ""), ("total_ratings", vInt 0)] ∧
    ∀ q : PyFloat,
      Record.get? [("movie_id", vInt 0), ("rating", vStr ""),
        ("total_ratings", vInt 0)] "rating" ≠ some (vFloat q) := by
  refine ⟨by rfl, fun q hq => ?_⟩
  rw [show Record.get? [("movie_id", vInt 0), ("rating", vStr ""),
    ("total_ratings", vInt 0)] "rating" = some (vStr "") from rfl] at hq
  simp at hq

/-- C9 (amended): an exhausted page fetch is NOT treated as a zero-item
page: `crawl_top250` skips to the next page on any page index, and the
API drivers skip to the next page on every index except 0, where the
failure alone is fatal to the source.  (A zero-ITEM page, by contrast,
always stops the driver.) -/
theorem claim_C9_fetch_failure (cat : String)
    (tp : Nat → Option (List (Option Record))) (ap : Nat → Option (List Record))
    (st : DriverState) (p fuel : Nat) :
    (tp p = none → top250Go tp st p (fuel + 1) = top250Go tp st (p + 1) fuel) ∧
    (ap 0 = none →
      apiGo cat ap st 0 (fuel + 1) = st ∧ regionGo cat ap st 0 (fuel + 1) = st) ∧
    (p ≠ 0 → ap p = none →
      apiGo cat ap st p (fuel + 1) = apiGo cat ap st (p + 1) fuel ∧
      regionGo cat ap st p (fuel + 1) = regionGo cat ap st (p + 1) fuel) := by
  refine ⟨fun h => ?_, fun h => ⟨?_, ?_⟩, fun hp h => ⟨?_, ?_⟩⟩
  · show (match tp p with
      | none => top250Go tp st (p + 1) fuel
      | some items =>
        if items.isEmpty then st
        else top250Go tp (top250Items st items).1 (p + 1) fuel) = _
    rw [h]
  · show (match ap 0 with
      | none => if 0 = 0 then st else apiGo cat ap st (0 + 1) fuel
      | some items =>
        if items.isEmpty then st
        else
          if (apiPageItems apiBuildMovie cat st items).2 = 0 ∧ 0 > 0 then
            (apiPageItems apiBuildMovie cat st items).1
          else apiGo cat ap (apiPageItems apiBuildMovie cat st items).1 (0 + 1) fuel) = _
    rw [h]
    rfl
  · show (match ap 0 with
      | none => if 0 = 0 then st else regionGo cat ap st (0 + 1) fuel
      | some items =>
        if items.isEmpty then st
        else
          if (apiPageItems regionBuildMovie cat st items).2 = 0 then
            (apiPageItems regionBuildMovie cat st items).1
          else regionGo cat ap (apiPageItems regionBuildMovie cat st items).1
            (0 + 1) fuel) = _
    rw [h]
    rfl
  · show (match ap p with
      | none => if p = 0 then st else apiGo cat ap st (p + 1) fuel
      | some items =>
        if items.isEmpty then st
        else
          if (apiPageItems apiBuildMovie cat st items).2 = 0 ∧ p > 0 then
            (apiPageItems apiBuildMovie cat st items).1
          else apiGo cat ap (apiPageItems apiBuildMovie cat st items).1 (p + 1) fuel) = _
    rw [h, if_neg hp]
  · show (match ap p with
      | none => if p = 0 then st else regionGo cat ap st (p + 1) fuel
      | some items =>
        if items.isEmpty then st
        else
          if (apiPageItems regionBuildMovie cat st items).2 = 0 then
            (apiPageItems regionBuildMovie cat st items).1
          else regionGo cat ap (apiPageItems regionBuildMovie cat st items).1
            (p + 1) fuel) = _
    rw [h, if_neg hp]

/-- Witness for C9 at concrete inputs: an always-failing source. -/
theorem claim_C9_witness :
    top250Go (fun _ => none) ⟨[], [], []⟩ 0 1 =
      top250Go (fun _ => none) ⟨[], [], []⟩ 1 0 ∧
    apiGo "c" (fun _ => none) ⟨[], [], []⟩ 0 1 = ⟨[], [], []⟩ ∧
    regionGo "c" (fun _ => none) ⟨[], [], []⟩ 0 1 = ⟨[], [], []⟩ ∧
    apiGo "c" (fun _ => none) ⟨[], [], []⟩ 1 1 =
      apiGo "c" (fun _ => none) ⟨[], [], []⟩ 2 0 :=
  have h := claim_C9_fetch_failure "c" (fun _ => none) (fun _ => none) ⟨[], [], []⟩ 1 0
  ⟨(claim_C9_fetch_failure "c" (fun _ => none) (fun _ => none) ⟨[], [], []⟩ 0 0).1 rfl,
   (h.2.1 rfl).1, (h.2.1 rfl).2, (h.2.2 (by decide) rfl).1⟩

/-- C9 counterexample: `crawl_top250` with a failing page 0 does NOT
stop with 0 records — it skips to page 1 and returns its record,
refuting "on the very first page the source stops reporting 0
records" for fetch failures. -/
theorem claim_C9_counterexample :
    (crawlTop250 3 (fun p => if p = 0 then none else if p = 1
        then some [some [("title", vStr "T"), ("link", vStr "L")]] else some [])
      []).movies =
      [[("movie_id", vInt 0), ("title", vStr "T"), ("rating", vFloat pfZero),
        ("total_ratings", vInt 0), ("link", vStr "L")]] := by rfl

/-- C10: a decodable non-array payload is kept as the first element,
while an undecodable file is silently rewritten as the one-element
array — the prior content is discarded. -/
theorem claim_C10_json_overwrite (movie r' : Record) (h : normalize movie = some r')
    (v : Value) (hnl : ∀ xs, v ≠ vList xs) :
    saveMovieLineJson .undecodable movie = some (vList [vDict r']) ∧
    saveMovieLineJson (.decoded v) movie = some (vList [v, vDict r']) := by
  constructor
  · unfold saveMovieLineJson
    rw [h]
    rfl
  · unfold saveMovieLineJson
    rw [h]
    cases v with
    | vList xs => exact absurd rfl (hnl xs)
    | vStr s => rfl
    | vInt n => rfl
    | vFloat q => rfl
    | vNone => rfl
    | vDict d => rfl

/-- Witness for C10 at a concrete record and prior payload. -/
theorem claim_C10_witness :
    saveMovieLineJson .undecodable [("title", vStr "T")] =
      some (vList [vDict [("movie_id", vInt 0), ("title", vStr "T"),
        ("rating", vFloat pfZero), ("total_ratings", vInt 0)]]) ∧
    saveMovieLineJson (.decoded (vStr "old")) [("title", vStr "T")] =
      some (vList [vStr "old", vDict [("movie_id", vInt 0), ("title", vStr "T"),
        ("rating", vFloat pfZero), ("total_ratings", vInt 0)]]) :=
  claim_C10_json_overwrite [("title", vStr "T")]
    [("movie_id", vInt 0), ("title", vStr "T"), ("rating", vFloat pfZero),
     ("total_ratings", vInt 0)] (by rfl) (vStr "old")
    (fun xs hx => Value.noConfusion hx)

/-- C7 (amended): a fresh tabular target derives its header from the
NORMALIZED first record; any later write against a target with a
nonempty header row reuses that header unchanged, builds the row only
from header fields (extra record fields dropped), and fills missing
fields with the empty cell. -/
theorem claim_C7_csv_header (movie r' : Record) (h : normalize movie = some r')
    (rows : List (List String)) (hne : (rows.headD []).isEmpty = false) :
    saveMovieLineCsv none movie =
      some [csvHeaderFor r', (csvHeaderFor r').map (fun f => csvCell (r'.get? f))] ∧
    saveMovieLineCsv (some rows) movie =
      some (rows ++ [(rows.headD []).map (fun f => csvCell (r'.get? f))]) := by
  constructor
  · unfold saveMovieLineCsv
    rw [h]
    rfl
  · unfold saveMovieLineCsv
    rw [h]
    show some (rows ++ [(if (rows.headD []).isEmpty = true then csvHeaderFor r'
      else rows.headD []).map (fun f => csvCell (r'.get? f))]) = _
    rw [hne]
    rfl

/-- Witness for C7: record A `{title, rating}` on a fresh target, and
the same record against an existing `["title", "rating"]` header. -/
theorem claim_C7_witness :
    saveMovieLineCsv none [("title", vStr "T"), ("rating", vFloat pfZero)] =
      some [["movie_id", "title", "rating", "total_ratings"],
        ["0", "T", "0.0", "0"]] ∧
    saveMovieLineCsv (some [["title", "rating"]])
      [("title", vStr "T"), ("rating", vFloat pfZero)] =
      some [["title", "rating"], ["T", "0.0"]] := by
  have h := claim_C7_csv_header [("title", vStr "T"), ("rating", vFloat pfZero)]
    [("movie_id", vInt 0), ("title", vStr "T"), ("rating", vFloat pfZero),
     ("total_ratings", vInt 0)] (by rfl) [["title", "rating"]] (by rfl)
  exact ⟨h.1.trans (by rfl), h.2.trans (by rfl)⟩

/-- C7 counterexample: writing record A with fields `{title, rating}`
to a fresh target yields the header of the normalized record —
`[movie_id, title, rating, total_ratings]` — not exactly
`{title, rating}` as claimed. -/
theorem claim_C7_counterexample :
    (saveMovieLineCsv none [("title", vStr "T"), ("rating", vFloat pfZero)]).map
      (fun rows => rows.headD []) =
      some ["movie_id", "title", "rating", "total_ratings"] ∧
    ["movie_id", "title", "rating", "total_ratings"] ≠ ["title", "rating"] :=
  ⟨by rfl, by decide⟩

/-- Keys untouched between the input and the post-people stage `m7` of
the pipeline. -/
theorem frames_to_m7 (r m2 m3 m4 m7 : Record)
    (h2 : stepActors (preDels r) = some m2) (h3 : stepDirectors m2 = some m3)
    (h4 : stepScreenwriters m3 = some m4)
    (h7 : stepPeople (stepRating (midDels m4)) = some m7)
    (k : String)
    (hk : k ∉ ["rank", "other_titles", "actors", "directors", "screenwriters",
      "also_known_as", "rating_5star", "rating_4star", "rating_3star",
      "rating_2star", "rating_1star", "quote", "info", "category", "rating_detail",
      "rating", "total_ratings", "people"]) :
    m7.get? k = r.get? k := by
  have hne : ∀ s, s ∈ ["rank", "other_titles", "actors", "directors",
      "screenwriters", "also_known_as", "rating_5star", "rating_4star",
      "rating_3star", "rating_2star", "rating_1star", "quote", "info", "category",
      "rating_detail", "rating", "total_ratings", "people"] → k ≠ s :=
    fun s hs he => hk (by rw [he]; exact hs)
  rw [stepPeople_frame _ _ h7 _ (hne _ (by decide)) (hne _ (by decide)),
    stepRating_frame _ _ (hne _ (by decide))]
  show (delKeys _ m4).get? k = _
  rw [get?_delKeys, if_neg (by
      intro hm
      simp only [List.mem_cons, List.not_mem_nil, or_false] at hm
      rcases hm with rfl | rfl | rfl | rfl | rfl | rfl | rfl | rfl | rfl | rfl
      all_goals exact hk (by decide)),
    stepScreenwriters_frame _ _ h4 _ (hne _ (by decide)),
    stepDirectors_frame _ _ h3 _ (hne _ (by decide)),
    stepActors_frame _ _ h2 _ (hne _ (by decide))]
  show (delKeys _ r).get? k = _
  rw [get?_delKeys, if_neg (by
    intro hm
    simp only [List.mem_cons, List.not_mem_nil, or_false] at hm
    rcases hm with rfl | rfl
    all_goals exact hk (by decide))]

/-- C1 (amended): the three drivers share one dedup rule.  An item
whose dedup key is empty or already claimed is rejected; an item with a
fresh nonempty key is accepted, claims the key, and is appended and
persisted.  (The key is the STRIPPED `link` only when the raw `link` is
truthy, else the stripped `title`; a whitespace-only `link` therefore
yields the empty key and the item is rejected — see the
counterexample.) -/
theorem claim_C1_dedup (st : DriverState) (movie item : Record) (key : String)
    (build : Record → Option Record) (cat : String)
    (hk : movieKey movie = some key) (hb : build item = some movie) :
    ((key = "" ∨ key ∈ st.existing) →
      top250Item st (some movie) = (st, true) ∧
      apiItemStep build cat st item = (st, false)) ∧
    (∀ m1 m2, key ≠ "" → key ∉ st.existing →
      normalize movie = some m1 → normalize m1 = some m2 →
      top250Item st (some movie) =
        (⟨key :: st.existing, st.movies ++ [m1], st.saved ++ [m2]⟩, true) ∧
      apiItemStep build cat st item =
        (⟨key :: st.existing, st.movies ++ [m1.set "category" (vStr cat)],
          st.saved ++ [m2]⟩, true)) := by
  have hcontains : ∀ (hdup : key = "" ∨ key ∈ st.existing),
      ¬ (key ≠ "" ∧ ¬ st.existing.contains key = true) := by
    intro hdup hc
    rcases hdup with rfl | hmem
    · exact hc.1 rfl
    · exact hc.2 (by simpa using hmem)
  refine ⟨fun hdup => ⟨?_, ?_⟩, fun m1 m2 hne hnot hn1 hn2 => ?_⟩
  · by_cases hemp : movie.isEmpty
    · simp [top250Item, hemp]
    · simp only [top250Item, Bool.not_eq_true] at hemp ⊢
      simp [hemp, hk, hcontains hdup]
      intro h1 h2
      exact absurd ⟨h1, by simpa using h2⟩ (hcontains hdup)
  · simp [apiItemStep, hb, hk, hcontains hdup]
    intro h1 h2
    exact absurd ⟨h1, by simpa using h2⟩ (hcontains hdup)
  · have hemp : movie.isEmpty = false := by
      cases movie with
      | nil => exact absurd (Option.some.inj (show some "" = some key from hk)).symm hne
      | cons kv m => rfl
    have hc1 : ¬ key = "" := hne
    have hc2 : ¬ st.existing.contains key = true := by simpa using hnot
    constructor
    · simp [top250Item, hk, hemp, hn1, hn2, hc1, hc2]
      exact fun hmem => absurd hmem hnot
    · simp [apiItemStep, hb, hk, hn1, hn2, hc1, hc2]
      exact fun hmem => absurd hmem hnot

/-- Witness for C1: a duplicate key is rejected by both item handlers,
and the same fresh key is accepted with the key claimed. -/
theorem claim_C1_witness :
    (top250Item ⟨["L"], [], []⟩ (some [("title", vStr "T"), ("link", vStr "L")]) =
      (⟨["L"], [], []⟩, true) ∧
     apiItemStep (fun _ => some [("title", vStr "T"), ("link", vStr "L")]) "c"
       ⟨["L"], [], []⟩ [] = (⟨["L"], [], []⟩, false)) ∧
    top250Item ⟨[], [], []⟩ (some [("title", vStr "T"), ("link", vStr "L")]) =
      (⟨["L"], [[("movie_id", vInt 0), ("title", vStr "T"), ("rating", vFloat pfZero),
        ("total_ratings", vInt 0), ("link", vStr "L")]],
        [[("movie_id", vInt 0), ("title", vStr "T"), ("rating", vFloat pfZero),
        ("total_ratings", vInt 0), ("link", vStr "L")]]⟩, true) :=
  ⟨(claim_C1_dedup ⟨["L"], [], []⟩ [("title", vStr "T"), ("link", vStr "L")] []
      "L" (fun _ => some [("title", vStr "T"), ("link", vStr "L")]) "c"
      (by rfl) (by rfl)).1 (Or.inr (by decide)),
   ((claim_C1_dedup ⟨[], [], []⟩ [("title", vStr "T"), ("link", vStr "L")] []
      "L" (fun _ => some [("title", vStr "T"), ("link", vStr "L")]) "c"
      (by rfl) (by rfl)).2
      [("movie_id", vInt 0), ("title", vStr "T"), ("rating", vFloat pfZero),
        ("total_ratings", vInt 0), ("link", vStr "L")]
      [("movie_id", vInt 0), ("title", vStr "T"), ("rating", vFloat pfZero),
        ("total_ratings", vInt 0), ("link", vStr "L")]
      (by decide) (by decide) (by rfl) (by rfl)).1⟩

/-- C1 counterexample: an item whose `link` is whitespace-only has an
empty TRIMMED link but a truthy raw link, so the claimed fall-back to
the trimmed title ("T") never happens — the dedup key is the empty
string and the item is rejected even against a fresh empty dedup set,
refuting both the fall-back sentence and "only the first is accepted"
(neither of two such items is accepted). -/
theorem claim_C1_counterexample :
    movieKey [("link", vStr " "), ("title", vStr "T")] = some "" ∧
    pyStrip " " = "" ∧ pyStrip "T" = "T" ∧
    top250Item ⟨[], [], []⟩ (some [("link", vStr " "), ("title", vStr "T")]) =
      (⟨[], [], []⟩, true) ∧
    apiItemStep (fun _ => some [("link", vStr " "), ("title", vStr "T")]) "c"
      ⟨[], [], []⟩ [] = (⟨[], [], []⟩, false) :=
  ⟨by rfl, by rfl, by rfl, by rfl, by rfl⟩

/-- C8: an API item whose id cannot be coerced to an integer is skipped
entirely (the builder raises inside the per-item `try`, contributing no
record), while the HTML path keeps the record and defaults an
unresolvable `movie_id` to `0`. -/
theorem claim_C8_id_asymmetry (cat : String) (st : DriverState) (item : Record)
    (mv : Value) (hnouri : item.get? "uri" = none) (hid : item.get? "id" = some mv)
    (htm : truthy mv = true) (hbad : pyIntFn mv = none)
    (r r' : Record) (hn : normalize r = some r') (hmid : r.get? "movie_id" = none)
    (u : String) (hlink : r.get? "link" = some (vStr u))
    (hscan : subjectIdScan u.data = none) :
    apiBuildMovie item = none ∧
    apiItemStep apiBuildMovie cat st item = (st, false) ∧
    r'.get? "movie_id" = some (vInt 0) := by
  have hb : apiBuildMovie item = none := by
    unfold apiBuildMovie
    rw [hnouri, hid]
    change (if truthy mv = true then _ else none) = none
    rw [if_pos htm]
    change Option.bind (pyIntFn mv) _ = none
    rw [hbad]
    rfl
  have hstep : apiItemStep apiBuildMovie cat st item = (st, false) := by
    unfold apiItemStep
    rw [hb]
  refine ⟨hb, hstep, ?_⟩
  obtain ⟨m2, m3, m4, m7, m8, m9, m10, m11, h2, h3, h4, h7, h8, h9, h10, h11, hr⟩ :=
    normalize_decompose r r' hn
  have hm7id : m7.get? "movie_id" = r.get? "movie_id" :=
    frames_to_m7 r m2 m3 m4 m7 h2 h3 h4 h7 "movie_id" (by decide)
  have hm7link : m7.get? "link" = r.get? "link" :=
    frames_to_m7 r m2 m3 m4 m7 h2 h3 h4 h7 "link" (by decide)
  have htA : truthyAt m7 "movie_id" = false := by
    unfold truthyAt
    rw [hm7id, hmid]
  have h8' : m8 = m7.set "movie_id" (vInt 0) := by
    unfold stepMovieId at h8
    rw [if_pos (by simp [htA])] at h8
    unfold deriveMovieIdFromLink at h8
    rw [hm7link, hlink] at h8
    change (if truthy (vStr u) = true then _ else
      some (m7.set "movie_id" (vInt 0))) = some m8 at h8
    by_cases ht : truthy (vStr u) = true
    · rw [if_pos ht] at h8
      change (match subjectIdScan u.data with
        | some ds => some (m7.set "movie_id" (vInt (ofDigitsBE (ds.map digitVal) : Int)))
        | none => some (m7.set "movie_id" (vInt 0))) = some m8 at h8
      rw [hscan] at h8
      exact (Option.some.inj h8).symm
    · rw [if_neg ht] at h8
      exact (Option.some.inj h8).symm
  have hm8 : m8.get? "movie_id" = some (vInt 0) := by
    rw [h8', Record.get?_set_self]
  subst hr
  rw [reorder_get?, stepReleaseFinal_frame _ _ (by decide) (by decide),
    stepRelease_frame _ _ h11 _ (by decide) (by decide) (by decide),
    cleanRegionField_frame _ _ _ h10 _ (by decide),
    cleanRegionField_frame _ _ _ h9 _ (by decide)]
  exact hm8

/-- Witness for C8: a non-numeric API id versus an HTML record whose
link carries no `/subject/<digits>/` segment. -/
theorem claim_C8_witness :
    apiBuildMovie [("id", vStr "abc")] = none ∧
    apiItemStep apiBuildMovie "c" ⟨[], [], []⟩ [("id", vStr "abc")] =
      (⟨[], [], []⟩, false) ∧
    Record.get? [("movie_id", vInt 0), ("rating", vFloat pfZero),
      ("total_ratings", vInt 0), ("link", vStr "https://example.com/")] "movie_id" =
      some (vInt 0) :=
  claim_C8_id_asymmetry "c" ⟨[], [], []⟩ [("id", vStr "abc")] (vStr "abc")
    (by rfl) (by rfl) (by decide) (by rfl)
    [("link", vStr "https://example.com/")]
    [("movie_id", vInt 0), ("rating", vFloat pfZero), ("total_ratings", vInt 0),
     ("link", vStr "https://example.com/")]
    (by rfl) (by rfl) "https://example.com/" (by rfl) (by rfl)

/-- What the final release step leaves at `release_date`: ints are
restringified, everything else is untouched. -/
theorem stepReleaseFinal_rdate (m : Record) :
    (stepReleaseFinal m).get? "release_date" =
      (match m.get? "release_date" with
       | some (vInt n) => some (vStr (intRepr n))
       | w => w) := by
  unfold stepReleaseFinal
  cases hg : m.get? "release_date" with
  | none =>
    rw [Record.get?_del_ne _ _ _ (by decide)]
    show m.get? "release_date" = _
    rw [hg]
  | some v =>
    cases v with
    | vInt n =>
      rw [Record.get?_del_ne _ _ _ (by decide), Record.get?_set_self]
    | vStr s =>
      rw [Record.get?_del_ne _ _ _ (by decide)]
      show m.get? "release_date" = _
      rw [hg]
    | vFloat q =>
      rw [Record.get?_del_ne _ _ _ (by decide)]
      show m.get? "release_date" = _
      rw [hg]
    | vNone =>
      rw [Record.get?_del_ne _ _ _ (by decide)]
      show m.get? "release_date" = _
      rw [hg]
    | vList l =>
      rw [Record.get?_del_ne _ _ _ (by decide)]
      show m.get? "release_date" = _
      rw [hg]
    | vDict d =>
      rw [Record.get?_del_ne _ _ _ (by decide)]
      show m.get? "release_date" = _
      rw [hg]

/-- C3 (amended): normalization is idempotent on its outputs whenever
the output's `movie_id` is truthy, or re-deriving it from `link` would
again give `0`; without that proviso a falsy `movie_id` is re-derived
from `link` on the second pass and the result can change (see the
counterexample). -/
theorem claim_C3_normalize_idempotent (r r' : Record) (hwf : RecordWF r)
    (h : normalize r = some r')
    (hmid : truthyAt r' "movie_id" = true ∨
      deriveMovieIdFromLink r' = some (r'.set "movie_id" (vInt 0))) :
    normalize r' = some r' := by
  have hwf' := normalize_WF r r' hwf h
  obtain ⟨hpost, z, hz⟩ := normalize_post r r' h
  have hfix := normalize_fix r' hwf' hpost hmid
  rw [hfix, hz, reorder_reorder]

/-- Witness for C3 at a concrete record with a truthy `movie_id`. -/
theorem claim_C3_witness :
    normalize [("movie_id", vInt 5), ("rating", vFloat pfZero),
      ("total_ratings", vInt 0)] =
      some [("movie_id", vInt 5), ("rating", vFloat pfZero),
        ("total_ratings", vInt 0)] :=
  claim_C3_normalize_idempotent [("movie_id", vInt 5)]
    [("movie_id", vInt 5), ("rating", vFloat pfZero), ("total_ratings", vInt 0)]
    (by decide) (by rfl) (Or.inl (by rfl))

/-- C3 counterexample: a record whose `movie_id` normalizes to `0` but
whose `link` holds a subject id.  The first pass coerces the
unparsable `movie_id` string to `0`; the second pass, seeing a falsy
`movie_id`, re-derives `123` from `link`, so
`normalize (normalize r) ≠ normalize r`. -/
theorem claim_C3_counterexample :
    normalize [("movie_id", vStr "x"),
      ("link", vStr "https://movie.douban.com/subject/123/")] =
      some [("movie_id", vInt 0), ("rating", vFloat pfZero),
        ("total_ratings", vInt 0),
        ("link", vStr "https://movie.douban.com/subject/123/")] ∧
    normalize [("movie_id", vInt 0), ("rating", vFloat pfZero),
      ("total_ratings", vInt 0),
      ("link", vStr "https://movie.douban.com/subject/123/")] =
      some [("movie_id", vInt 123), ("rating", vFloat pfZero),
        ("total_ratings", vInt 0),
        ("link", vStr "https://movie.douban.com/subject/123/")] ∧
    some [("movie_id", vInt 123), ("rating", vFloat pfZero),
      ("total_ratings", vInt 0),
      ("link", vStr "https://movie.douban.com/subject/123/")] ≠
    some [("movie_id", vInt 0), ("rating", vFloat pfZero),
      ("total_ratings", vInt 0),
      ("link", vStr "https://movie.douban.com/subject/123/")] :=
  ⟨by rfl, by rfl, by decide⟩

/-- C4: every normalized record has at most 5 comma-separated trimmed
nonempty names in `actors` and at most 1 in each of `directors` and
`screenwriters` (counting with the code's own
split-strip-drop-empties idiom). -/
theorem claim_C4_name_caps (r r' : Record) (h : normalize r = some r') :
    (∀ s, r'.get? "actors" = some (vStr s) → (splitTrimFilter s).length ≤ 5) ∧
    (∀ s, r'.get? "directors" = some (vStr s) → (splitTrimFilter s).length ≤ 1) ∧
    (∀ s, r'.get? "screenwriters" = some (vStr s) →
      (splitTrimFilter s).length ≤ 1) := by
  obtain ⟨⟨hdel, hact, hdir, hscr, _, _, _, _, _, _, _, _⟩, _⟩ := normalize_post r r' h
  refine ⟨fun s hs => ?_, fun s hs => ?_, fun s hs => ?_⟩
  · rw [hs] at hact
    rcases hact with hf | ⟨t, ht, hcase⟩
    · have hse : s = "" := by simpa [truthy] using hf
      subst hse
      decide
    · have hts : t = s := by
        injection ht with h1
        exact h1.symm
      subst hts
      rcases hcase with hemp | ⟨l, hne, hlen, hgood, hjoin⟩
      · rw [hemp]
        decide
      · rw [hjoin, splitTrimFilter_join l hgood]
        exact hlen
  · rw [hs] at hdir
    rcases hdir with hf | ⟨t, ht, hcase⟩
    · have hse : s = "" := by simpa [truthy] using hf
      subst hse
      decide
    · have hts : t = s := by
        injection ht with h1
        exact h1.symm
      subst hts
      rcases hcase with hemp | hgp
      · rw [hemp]
        decide
      · rw [splitTrimFilter_single _ hgp]
        simp
  · rw [hs] at hscr
    rcases hscr with hf | ⟨t, ht, hcase⟩
    · have hse : s = "" := by simpa [truthy] using hf
      subst hse
      decide
    · have hts : t = s := by
        injection ht with h1
        exact h1.symm
      subst hts
      rcases hcase with hemp | hgp
      · rw [hemp]
        decide
      · rw [splitTrimFilter_single _ hgp]
        simp

/-- Witness for C4: seven actors are capped at five. -/
theorem claim_C4_witness :
    (splitTrimFilter "A, B, C, D, E").length ≤ 5 :=
  (claim_C4_name_caps [("actors", vStr "A,B,C,D,E,F,G")]
    [("movie_id", vInt 0), ("rating", vFloat pfZero), ("total_ratings", vInt 0),
     ("actors", vStr "A, B, C, D, E")] (by rfl)).1 "A, B, C, D, E" (by rfl)

/-- C5 (amended): a truthy string `release_dates` is always deleted;
`release_date` becomes the extracted date of the FIRST trimmed entry
when one extracts, and otherwise keeps its prior value (an int prior
value restringified) — a record with no parsable date but a
preexisting `release_date` does NOT end without the field (see the
counterexample). -/
theorem claim_C5_release_collapse (r r' : Record) (h : normalize r = some r')
    (s : String) (hrd : r.get? "release_dates" = some (vStr s))
    (hs : truthy (vStr s) = true) :
    r'.get? "release_dates" = none ∧
    (match splitTrimFilter s with
     | d0 :: _ =>
       match extractDate d0 with
       | some d => r'.get? "release_date" = some (vStr d)
       | none => r'.get? "release_date" =
           (match r.get? "release_date" with
            | some (vInt n) => some (vStr (intRepr n))
            | w => w)
     | [] => r'.get? "release_date" =
         (match r.get? "release_date" with
          | some (vInt n) => some (vStr (intRepr n))
          | w => w)) := by
  obtain ⟨m2, m3, m4, m7, m8, m9, m10, m11, h2, h3, h4, h7, h8, h9, h10, h11, hr⟩ :=
    normalize_decompose r r' h
  have hm7rd : m7.get? "release_dates" = r.get? "release_dates" :=
    frames_to_m7 r m2 m3 m4 m7 h2 h3 h4 h7 "release_dates" (by decide)
  have hm7rdate : m7.get? "release_date" = r.get? "release_date" :=
    frames_to_m7 r m2 m3 m4 m7 h2 h3 h4 h7 "release_date" (by decide)
  have hm10rd : m10.get? "release_dates" = some (vStr s) := by
    rw [cleanRegionField_frame _ _ _ h10 _ (by decide),
      cleanRegionField_frame _ _ _ h9 _ (by decide),
      stepMovieId_frame _ _ h8 _ (by decide), hm7rd, hrd]
  have hm10rdate : m10.get? "release_date" = r.get? "release_date" := by
    rw [cleanRegionField_frame _ _ _ h10 _ (by decide),
      cleanRegionField_frame _ _ _ h9 _ (by decide),
      stepMovieId_frame _ _ h8 _ (by decide), hm7rdate]
  unfold stepRelease at h11
  rw [hm10rd] at h11
  change (if truthy (vStr s) = true then
      some ((match splitTrimFilter s with
        | d0 :: _ =>
          match extractDate d0 with
          | some d => m10.set "release_date" (vStr d)
          | none => m10
        | [] => m10).del "release_dates")
    else releaseElse m10) = some m11 at h11
  rw [if_pos hs] at h11
  have hm11 : m11 = (match splitTrimFilter s with
      | d0 :: _ =>
        match extractDate d0 with
        | some d => m10.set "release_date" (vStr d)
        | none => m10
      | [] => m10).del "release_dates" := (Option.some.inj h11).symm
  subst hr
  constructor
  · rw [reorder_get?, stepReleaseFinal_frame _ _ (by decide) (by decide), hm11,
      Record.get?_del_self]
  · cases hsp : splitTrimFilter s with
    | nil =>
      rw [hsp] at hm11
      have hm11n : m11 = m10.del "release_dates" := hm11
      show (reorder (stepReleaseFinal m11)).get? "release_date" =
        (match r.get? "release_date" with
         | some (vInt n) => some (vStr (intRepr n))
         | w => w)
      rw [reorder_get?, stepReleaseFinal_rdate, hm11n,
        Record.get?_del_ne _ _ _ (by decide), hm10rdate]
    | cons d0 rest =>
      rw [hsp] at hm11
      show (match extractDate d0 with
        | some d =>
          (reorder (stepReleaseFinal m11)).get? "release_date" = some (vStr d)
        | none =>
          (reorder (stepReleaseFinal m11)).get? "release_date" =
            (match r.get? "release_date" with
             | some (vInt n) => some (vStr (intRepr n))
             | w => w))
      have hm11c : m11 = (match extractDate d0 with
          | some d => m10.set "release_date" (vStr d)
          | none => m10).del "release_dates" := hm11
      cases hex : extractDate d0 with
      | some d =>
        rw [hex] at hm11c
        have hm11s : m11 = (m10.set "release_date" (vStr d)).del "release_dates" :=
          hm11c
        show (reorder (stepReleaseFinal m11)).get? "release_date" = some (vStr d)
        have hg11 : m11.get? "release_date" = some (vStr d) := by
          rw [hm11s, Record.get?_del_ne _ _ _ (by decide), Record.get?_set_self]
        rw [reorder_get?, stepReleaseFinal_rdate, hg11]
      | none =>
        rw [hex] at hm11c
        have hm11n : m11 = m10.del "release_dates" := hm11c
        show (reorder (stepReleaseFinal m11)).get? "release_date" =
          (match r.get? "release_date" with
           | some (vInt n) => some (vStr (intRepr n))
           | w => w)
        rw [reorder_get?, stepReleaseFinal_rdate, hm11n,
          Record.get?_del_ne _ _ _ (by decide), hm10rdate]

/-- Witness for C5 at the spec's two worked examples. -/
theorem claim_C5_witness :
    Record.get? [("movie_id", vInt 0), ("rating", vFloat pfZero),
      ("total_ratings", vInt 0), ("release_date", vStr "1994-09-10")]
      "release_dates" = none ∧
    Record.get? [("movie_id", vInt 0), ("rating", vFloat pfZero),
      ("total_ratings", vInt 0), ("release_date", vStr "1994-09-10")]
      "release_date" = some (vStr "1994-09-10") ∧
    Record.get? [("movie_id", vInt 0), ("rating", vFloat pfZero),
      ("total_ratings", vInt 0), ("release_date", vStr "1994")]
      "release_date" = some (vStr "1994") := by
  have h1 := claim_C5_release_collapse
    [("release_dates", vStr "1994-09-10(多伦多电影节), 1994-09-23(加拿大)")]
    [("movie_id", vInt 0), ("rating", vFloat pfZero), ("total_ratings", vInt 0),
     ("release_date", vStr "1994-09-10")] (by rfl)
    "1994-09-10(多伦多电影节), 1994-09-23(加拿大)" (by rfl) (by rfl)
  have h2 := claim_C5_release_collapse
    [("release_dates", vStr "1994(日本)")]
    [("movie_id", vInt 0), ("rating", vFloat pfZero), ("total_ratings", vInt 0),
     ("release_date", vStr "1994")] (by rfl)
    "1994(日本)" (by rfl) (by rfl)
  exact ⟨h1.1, h1.2, h2.2⟩

/-- C5 counterexample: `release_dates` with no parsable date but a
preexisting `release_date` keeps the old value — the record does NOT
end with no `release_date` field as claimed. -/
theorem claim_C5_counterexample :
    (normalize [("release_dates", vStr "garbage"), ("release_date", vStr "old")]).map
      (fun r => r.get? "release_date") = some (some (vStr "old")) := by rfl

/-- One `if detail_info.get(f): movie[f] = detail_info[f]` step, read at
any key. -/
theorem mergeFoldStep_get? (movie detail : Record) (a f : String) :
    (match detail.get? a with
     | some v => if truthy v then movie.set a v else movie
     | none => movie).get? f =
    if f = a then
      (match detail.get? f with
       | some v => if truthy v then some v else movie.get? f
       | none => movie.get? f)
    else movie.get? f := by
  by_cases hfa : f = a
  · subst hfa
    rw [if_pos rfl]
    cases hg : detail.get? f with
    | none => rfl
    | some v =>
      show (if truthy v = true then movie.set f v else movie).get? f =
        (if truthy v = true then some v else movie.get? f)
      by_cases ht : truthy v = true
      · rw [if_pos ht, if_pos ht, Record.get?_set_self]
      · rw [if_neg ht, if_neg ht]
  · rw [if_neg hfa]
    cases hg : detail.get? a with
    | none => rfl
    | some v =>
      show (if truthy v = true then movie.set a v else movie).get? f = movie.get? f
      by_cases ht : truthy v = true
      · rw [if_pos ht, Record.get?_set_ne _ _ _ _ (fun he => hfa he.symm)]
      · rw [if_neg ht]

/-- The field-merge fold, read at any key. -/
theorem mergeFold_get? (detail : Record) (L : List String) (movie : Record)
    (f : String) :
    (L.foldl (fun m g =>
      match detail.get? g with
      | some v => if truthy v then m.set g v else m
      | none => m) movie).get? f =
    if f ∈ L then
      (match detail.get? f with
       | some v => if truthy v then some v else movie.get? f
       | none => movie.get? f)
    else movie.get? f := by
  induction L generalizing movie with
  | nil => simp
  | cons a L ih =>
    show (L.foldl _ (match detail.get? a with
      | some v => if truthy v then movie.set a v else movie
      | none => movie)).get? f = _
    rw [ih, mergeFoldStep_get? movie detail a f]
    by_cases hfa : f = a
    · subst hfa
      rw [if_pos rfl, if_pos (List.mem_cons_self f L)]
      by_cases hfL : f ∈ L
      · rw [if_pos hfL]
        cases hg : detail.get? f with
        | none => rfl
        | some v =>
          show (if truthy v = true then some v else
              (if truthy v = true then some v else movie.get? f)) =
            (if truthy v = true then some v else movie.get? f)
          by_cases ht : truthy v = true
          · rw [if_pos ht, if_pos ht]
          · rw [if_neg ht, if_neg ht]
      · rw [if_neg hfL]
    · rw [if_neg hfa]
      by_cases hfL : f ∈ L
      · rw [if_pos hfL, if_pos (List.mem_cons_of_mem a hfL)]
      · rw [if_neg hfL, if_neg (by
          intro hm
          rcases List.mem_cons.mp hm with h1 | h2
          · exact hfa h1
          · exact hfL h2)]


/-- The `total_ratings` tail of the rating block (the do-block's join
point), applied to the record `b` produced by the `average` half. -/
def ratingTail (rd : List (String × Value)) (b : Record) : Option Record :=
  match dictGet? rd "total_ratings" with
  | some cv => if truthy cv = true then some (b.set "total_ratings" cv) else some b
  | none => some b

/-- What the tail does to any key. -/
theorem ratingTail_get (rd : List (String × Value)) (b res : Record)
    (h : ratingTail rd b = some res) :
    (∀ k, k ≠ "total_ratings" → res.get? k = b.get? k) ∧
    (∀ cv, dictGet? rd "total_ratings" = some cv → truthy cv = true →
      res.get? "total_ratings" = some cv) := by
  unfold ratingTail at h
  constructor
  · intro k hk
    cases hcv : dictGet? rd "total_ratings" with
    | none =>
      rw [hcv] at h
      have h' : some b = some res := h
      rw [← Option.some.inj h']
    | some cv =>
      rw [hcv] at h
      change (if truthy cv = true then some (b.set "total_ratings" cv)
        else some b) = some res at h
      by_cases htc : truthy cv = true
      · rw [if_pos htc] at h
        rw [← Option.some.inj h,
          Record.get?_set_ne _ _ _ _ (fun he => hk he.symm)]
      · rw [if_neg htc] at h
        rw [← Option.some.inj h]
  · intro cv hcv htc
    rw [hcv] at h
    change (if truthy cv = true then some (b.set "total_ratings" cv)
      else some b) = some res at h
    rw [if_pos htc] at h
    rw [← Option.some.inj h, Record.get?_set_self]

/-- The rating block, decomposed: when `rating_detail` is a truthy
dict, the `average` half yields an intermediate record `b` and the
tail finishes from it. -/
theorem mergeRating_dict_cases (m detail res : Record) (rd : List (String × Value))
    (hrd : detail.get? "rating_detail" = some (vDict rd))
    (htr : truthy (vDict rd) = true) (h : mergeRating m detail = some res) :
    ∃ b, ratingTail rd b = some res ∧
      (match dictGet? rd "average" with
       | some av =>
         if truthy av = true then
           match av with
           | vStr s =>
             match parseFloat s with
             | some q => some (m.set "rating" (vFloat q))
             | none => some (m.set "rating" ((m.get? "rating").getD (vFloat pfZero)))
           | _ =>
             match pyFloatFn av with
             | some q => some (m.set "rating" (vFloat q))
             | none => none
         else some m
       | none => some m) = some b := by
  unfold mergeRating at h
  rw [hrd] at h
  change (if truthy (vDict rd) = true then _ else some m) = some res at h
  rw [if_pos htr] at h
  change (match dictGet? rd "average" with
    | some av =>
      if truthy av = true then
        match av with
        | vStr s =>
          match parseFloat s with
          | some q => ratingTail rd (m.set "rating" (vFloat q))
          | none =>
            ratingTail rd (m.set "rating" ((m.get? "rating").getD (vFloat pfZero)))
        | _ =>
          match pyFloatFn av with
          | some q => ratingTail rd (m.set "rating" (vFloat q))
          | none => none
      else ratingTail rd m
    | none => ratingTail rd m) = some res at h
  cases hav : dictGet? rd "average" with
  | none =>
    rw [hav] at h
    have h' : ratingTail rd m = some res := h
    exact ⟨m, h', rfl⟩
  | some av =>
    rw [hav] at h
    change (if truthy av = true then _ else ratingTail rd m) = some res at h
    by_cases hta : truthy av = true
    · rw [if_pos hta] at h
      cases av with
      | vStr s =>
        change (match parseFloat s with
          | some q => ratingTail rd (m.set "rating" (vFloat q))
          | none =>
            ratingTail rd
              (m.set "rating" ((m.get? "rating").getD (vFloat pfZero)))) =
          some res at h
        cases hpf : parseFloat s with
        | some q =>
          rw [hpf] at h
          have h' : ratingTail rd (m.set "rating" (vFloat q)) = some res := h
          refine ⟨m.set "rating" (vFloat q), h', ?_⟩
          change (if truthy (vStr s) = true then _
            else some m) = some (m.set "rating" (vFloat q))
          rw [if_pos hta]
          change (match parseFloat s with
            | some q => some (m.set "rating" (vFloat q))
            | none =>
              some (m.set "rating" ((m.get? "rating").getD (vFloat pfZero)))) = _
          rw [hpf]
        | none =>
          rw [hpf] at h
          have h' : ratingTail rd
            (m.set "rating" ((m.get? "rating").getD (vFloat pfZero))) = some res := h
          refine ⟨m.set "rating" ((m.get? "rating").getD (vFloat pfZero)), h', ?_⟩
          change (if truthy (vStr s) = true then _ else some m) = _
          rw [if_pos hta]
          change (match parseFloat s with
            | some q => some (m.set "rating" (vFloat q))
            | none =>
              some (m.set "rating" ((m.get? "rating").getD (vFloat pfZero)))) = _
          rw [hpf]
      | vInt n =>
        change (match pyFloatFn (vInt n) with
          | some q => ratingTail rd (m.set "rating" (vFloat q))
          | none => none) = some res at h
        cases hq : pyFloatFn (vInt n) with
        | some q =>
          rw [hq] at h
          have h' : ratingTail rd (m.set "rating" (vFloat q)) = some res := h
          refine ⟨m.set "rating" (vFloat q), h', ?_⟩
          change (if truthy (vInt n) = true then _ else some m) = _
          rw [if_pos hta]
          change (match pyFloatFn (vInt n) with
            | some q => some (m.set "rating" (vFloat q))
            | none => none) = _
          rw [hq]
        | none =>
          rw [hq] at h
          exact Option.noConfusion (show (none : Option Record) = some res from h)
      | vFloat p =>
        change (match pyFloatFn (vFloat p) with
          | some q => ratingTail rd (m.set "rating" (vFloat q))
          | none => none) = some res at h
        cases hq : pyFloatFn (vFloat p) with
        | some q =>
          rw [hq] at h
          have h' : ratingTail rd (m.set "rating" (vFloat q)) = some res := h
          refine ⟨m.set "rating" (vFloat q), h', ?_⟩
          change (if truthy (vFloat p) = true then _ else some m) = _
          rw [if_pos hta]
          change (match pyFloatFn (vFloat p) with
            | some q => some (m.set "rating" (vFloat q))
            | none => none) = _
          rw [hq]
        | none =>
          rw [hq] at h
          exact Option.noConfusion (show (none : Option Record) = some res from h)
      | vNone =>
        change (match pyFloatFn vNone with
          | some q => ratingTail rd (m.set "rating" (vFloat q))
          | none => none) = some res at h
        cases hq : pyFloatFn vNone with
        | some q =>
          rw [hq] at h
          have h' : ratingTail rd (m.set "rating" (vFloat q)) = some res := h
          refine ⟨m.set "rating" (vFloat q), h', ?_⟩
          change (if truthy vNone = true then _ else some m) = _
          rw [if_pos hta]
          change (match pyFloatFn vNone with
            | some q => some (m.set "rating" (vFloat q))
            | none => none) = _
          rw [hq]
        | none =>
          rw [hq] at h
          exact Option.noConfusion (show (none : Option Record) = some res from h)
      | vList l =>
        change (match pyFloatFn (vList l) with
          | some q => ratingTail rd (m.set "rating" (vFloat q))
          | none => none) = some res at h
        cases hq : pyFloatFn (vList l) with
        | some q =>
          rw [hq] at h
          have h' : ratingTail rd (m.set "rating" (vFloat q)) = some res := h
          refine ⟨m.set "rating" (vFloat q), h', ?_⟩
          change (if truthy (vList l) = true then _ else some m) = _
          rw [if_pos hta]
          change (match pyFloatFn (vList l) with
            | some q => some (m.set "rating" (vFloat q))
            | none => none) = _
          rw [hq]
        | none =>
          rw [hq] at h
          exact Option.noConfusion (show (none : Option Record) = some res from h)
      | vDict dd =>
        change (match pyFloatFn (vDict dd) with
          | some q => ratingTail rd (m.set "rating" (vFloat q))
          | none => none) = some res at h
        cases hq : pyFloatFn (vDict dd) with
        | some q =>
          rw [hq] at h
          have h' : ratingTail rd (m.set "rating" (vFloat q)) = some res := h
          refine ⟨m.set "rating" (vFloat q), h', ?_⟩
          change (if truthy (vDict dd) = true then _ else some m) = _
          rw [if_pos hta]
          change (match pyFloatFn (vDict dd) with
            | some q => some (m.set "rating" (vFloat q))
            | none => none) = _
          rw [hq]
        | none =>
          rw [hq] at h
          exact Option.noConfusion (show (none : Option Record) = some res from h)
    · rw [if_neg hta] at h
      refine ⟨m, h, ?_⟩
      change (if truthy av = true then _ else some m) = some m
      rw [if_neg hta]

/-- The rating block when `rating_detail` is absent or falsy: the
record passes through. -/
theorem mergeRating_skip (m detail : Record)
    (h : detail.get? "rating_detail" = none ∨
      ∃ rdv, detail.get? "rating_detail" = some rdv ∧ truthy rdv = false) :
    mergeRating m detail = some m := by
  unfold mergeRating
  rcases h with hn | ⟨rdv, hg, hf⟩
  · rw [hn]
  · rw [hg]
    change (if truthy rdv = true then _ else some m) = some m
    rw [hf]
    rfl

/-- The rating block never touches keys other than `rating` and
`total_ratings`. -/
theorem mergeRating_frame (m detail res : Record)
    (h : mergeRating m detail = some res) (k : String)
    (h1 : k ≠ "rating") (h2 : k ≠ "total_ratings") :
    res.get? k = m.get? k := by
  have hsetr : ∀ (x : Record) v, (x.set "rating" v).get? k = x.get? k :=
    fun x v => Record.get?_set_ne x _ k v (fun he => h1 he.symm)
  cases hrd : detail.get? "rating_detail" with
  | none =>
    rw [mergeRating_skip m detail (Or.inl hrd)] at h
    rw [← Option.some.inj h]
  | some rdv =>
    by_cases ht : truthy rdv = true
    · cases rdv with
      | vDict rd =>
        obtain ⟨b, htail, hb⟩ := mergeRating_dict_cases m detail res rd hrd ht h
        have hbk : b.get? k = m.get? k := by
          cases hav : dictGet? rd "average" with
          | none =>
            rw [hav] at hb
            rw [← Option.some.inj hb]
          | some av =>
            rw [hav] at hb
            change (if truthy av = true then _ else some m) = some b at hb
            by_cases hta : truthy av = true
            · rw [if_pos hta] at hb
              cases av with
              | vStr s =>
                change (match parseFloat s with
                  | some q => some (m.set "rating" (vFloat q))
                  | none =>
                    some (m.set "rating"
                      ((m.get? "rating").getD (vFloat pfZero)))) = some b at hb
                cases hpf : parseFloat s with
                | some q =>
                  rw [hpf] at hb
                  have hb' : some (m.set "rating" (vFloat q)) = some b := hb
                  rw [← Option.some.inj hb', hsetr]
                | none =>
                  rw [hpf] at hb
                  have hb' : some (m.set "rating"
                    ((m.get? "rating").getD (vFloat pfZero))) = some b := hb
                  rw [← Option.some.inj hb', hsetr]
              | vInt n =>
                change (match pyFloatFn (vInt n) with
                  | some q => some (m.set "rating" (vFloat q))
                  | none => none) = some b at hb
                cases hq : pyFloatFn (vInt n) with
                | some q =>
                  rw [hq] at hb
                  have hb' : some (m.set "rating" (vFloat q)) = some b := hb
                  rw [← Option.some.inj hb', hsetr]
                | none =>
                  rw [hq] at hb
                  exact Option.noConfusion
                    (show (none : Option Record) = some b from hb)
              | vFloat p =>
                change (match pyFloatFn (vFloat p) with
                  | some q => some (m.set "rating" (vFloat q))
                  | none => none) = some b at hb
                cases hq : pyFloatFn (vFloat p) with
                | some q =>
                  rw [hq] at hb
                  have hb' : some (m.set "rating" (vFloat q)) = some b := hb
                  rw [← Option.some.inj hb', hsetr]
                | none =>
                  rw [hq] at hb
                  exact Option.noConfusion
                    (show (none : Option Record) = some b from hb)
              | vNone =>
                change (match pyFloatFn vNone with
                  | some q => some (m.set "rating" (vFloat q))
                  | none => none) = some b at hb
                cases hq : pyFloatFn vNone with
                | some q =>
                  rw [hq] at hb
                  have hb' : some (m.set "rating" (vFloat q)) = some b := hb
                  rw [← Option.some.inj hb', hsetr]
                | none =>
                  rw [hq] at hb
                  exact Option.noConfusion
                    (show (none : Option Record) = some b from hb)
              | vList l =>
                change (match pyFloatFn (vList l) with
                  | some q => some (m.set "rating" (vFloat q))
                  | none => none) = some b at hb
                cases hq : pyFloatFn (vList l) with
                | some q =>
                  rw [hq] at hb
                  have hb' : some (m.set "rating" (vFloat q)) = some b := hb
                  rw [← Option.some.inj hb', hsetr]
                | none =>
                  rw [hq] at hb
                  exact Option.noConfusion
                    (show (none : Option Record) = some b from hb)
              | vDict dd =>
                change (match pyFloatFn (vDict dd) with
                  | some q => some (m.set "rating" (vFloat q))
                  | none => none) = some b at hb
                cases hq : pyFloatFn (vDict dd) with
                | some q =>
                  rw [hq] at hb
                  have hb' : some (m.set "rating" (vFloat q)) = some b := hb
                  rw [← Option.some.inj hb', hsetr]
                | none =>
                  rw [hq] at hb
                  exact Option.noConfusion
                    (show (none : Option Record) = some b from hb)
            · rw [if_neg hta] at hb
              rw [← Option.some.inj hb]
        rw [(ratingTail_get rd b res htail).1 k h2, hbk]
      | vStr s =>
        exact absurd h (by
          unfold mergeRating
          rw [hrd]
          change ¬ (if truthy (vStr s) = true then _ else some m) = some res
          rw [if_pos ht]
          exact fun hc =>
            Option.noConfusion (show (none : Option Record) = some res from hc))
      | vInt n =>
        exact absurd h (by
          unfold mergeRating
          rw [hrd]
          change ¬ (if truthy (vInt n) = true then _ else some m) = some res
          rw [if_pos ht]
          exact fun hc =>
            Option.noConfusion (show (none : Option Record) = some res from hc))
      | vFloat p =>
        exact absurd h (by
          unfold mergeRating
          rw [hrd]
          change ¬ (if truthy (vFloat p) = true then _ else some m) = some res
          rw [if_pos ht]
          exact fun hc =>
            Option.noConfusion (show (none : Option Record) = some res from hc))
      | vNone =>
        exact absurd h (by
          unfold mergeRating
          rw [hrd]
          change ¬ (if truthy vNone = true then _ else some m) = some res
          rw [if_pos ht]
          exact fun hc =>
            Option.noConfusion (show (none : Option Record) = some res from hc))
      | vList l =>
        exact absurd h (by
          unfold mergeRating
          rw [hrd]
          change ¬ (if truthy (vList l) = true then _ else some m) = some res
          rw [if_pos ht]
          exact fun hc =>
            Option.noConfusion (show (none : Option Record) = some res from hc))
    · rw [mergeRating_skip m detail
        (Or.inr ⟨rdv, hrd, by simpa using ht⟩)] at h
      rw [← Option.some.inj h]

/-- C6 (amended): each of the twelve enrichable fields takes the
detail's value exactly when that value is truthy, and the base's prior
value otherwise; a truthy dict `rating_detail` with a truthy STRING
`average` merges the parsed float, falling back to the base's prior
rating only on string-parse failure; a truthy non-string `average`
merges `float(average)` when that conversion is defined (when it is
not, the merge raises — see the counterexample); a truthy rating count
overwrites `total_ratings` verbatim. -/
theorem claim_C6_merge (movie detail res : Record)
    (hne : detail.isEmpty = false) (h : mergeDetail movie detail = some res) :
    (∀ f ∈ MERGE_FIELDS, res.get? f =
      (match detail.get? f with
       | some v => if truthy v = true then some v else movie.get? f
       | none => movie.get? f)) ∧
    (∀ rd, detail.get? "rating_detail" = some (vDict rd) →
      truthy (vDict rd) = true →
      ((∀ s, dictGet? rd "average" = some (vStr s) → truthy (vStr s) = true →
        ((∀ q, parseFloat s = some q → res.get? "rating" = some (vFloat q)) ∧
         (parseFloat s = none →
           res.get? "rating" = some ((movie.get? "rating").getD (vFloat pfZero))))) ∧
       (∀ av q, dictGet? rd "average" = some av → truthy av = true →
         (∀ s, av ≠ vStr s) → pyFloatFn av = some q →
         res.get? "rating" = some (vFloat q)) ∧
       (∀ cv, dictGet? rd "total_ratings" = some cv → truthy cv = true →
         res.get? "total_ratings" = some cv))) := by
  have h' : mergeRating (mergeFields movie detail) detail = some res := by
    unfold mergeDetail at h
    rw [hne] at h
    exact h
  have hmf : ∀ f, (mergeFields movie detail).get? f =
      if f ∈ MERGE_FIELDS then
        (match detail.get? f with
         | some v => if truthy v = true then some v else movie.get? f
         | none => movie.get? f)
      else movie.get? f := by
    intro f
    show (MERGE_FIELDS.foldl (fun m g =>
      match detail.get? g with
      | some v => if truthy v then m.set g v else m
      | none => m) movie).get? f = _
    exact mergeFold_get? detail MERGE_FIELDS movie f
  constructor
  · intro f hf
    have hfr : f ≠ "rating" ∧ f ≠ "total_ratings" := by
      simp only [MERGE_FIELDS, List.mem_cons, List.not_mem_nil, or_false] at hf
      rcases hf with rfl|rfl|rfl|rfl|rfl|rfl|rfl|rfl|rfl|rfl|rfl|rfl
      all_goals exact ⟨by decide, by decide⟩
    rw [mergeRating_frame _ _ _ h' f hfr.1 hfr.2, hmf f, if_pos hf]
  · intro rd hrd htr
    obtain ⟨b, htail, hb⟩ := mergeRating_dict_cases _ _ _ rd hrd htr h'
    have htl := ratingTail_get rd b res htail
    have hmfr : (mergeFields movie detail).get? "rating" = movie.get? "rating" := by
      rw [hmf "rating", if_neg (by decide)]
    refine ⟨fun s hav hts => ⟨fun q hpf => ?_, fun hpf => ?_⟩,
      fun av q hav hta hnstr hpf => ?_, fun cv hcv htc => ?_⟩
    · rw [hav] at hb
      change (if truthy (vStr s) = true then _
        else some (mergeFields movie detail)) = some b at hb
      rw [if_pos hts] at hb
      change (match parseFloat s with
        | some q => some ((mergeFields movie detail).set "rating" (vFloat q))
        | none => some ((mergeFields movie detail).set "rating"
            (((mergeFields movie detail).get? "rating").getD (vFloat pfZero)))) =
        some b at hb
      rw [hpf] at hb
      have hb' : some ((mergeFields movie detail).set "rating" (vFloat q)) =
        some b := hb
      rw [htl.1 "rating" (by decide), ← Option.some.inj hb', Record.get?_set_self]
    · rw [hav] at hb
      change (if truthy (vStr s) = true then _
        else some (mergeFields movie detail)) = some b at hb
      rw [if_pos hts] at hb
      change (match parseFloat s with
        | some q => some ((mergeFields movie detail).set "rating" (vFloat q))
        | none => some ((mergeFields movie detail).set "rating"
            (((mergeFields movie detail).get? "rating").getD (vFloat pfZero)))) =
        some b at hb
      rw [hpf] at hb
      have hb' : some ((mergeFields movie detail).set "rating"
        (((mergeFields movie detail).get? "rating").getD (vFloat pfZero))) =
        some b := hb
      rw [htl.1 "rating" (by decide), ← Option.some.inj hb', Record.get?_set_self,
        hmfr]
    · rw [hav] at hb
      change (if truthy av = true then _
        else some (mergeFields movie detail)) = some b at hb
      rw [if_pos hta] at hb
      cases av with
      | vStr s => exact absurd rfl (hnstr s)
      | vInt n =>
        change (match pyFloatFn (vInt n) with
          | some q => some ((mergeFields movie detail).set "rating" (vFloat q))
          | none => none) = some b at hb
        rw [hpf] at hb
        have hb' : some ((mergeFields movie detail).set "rating" (vFloat q)) =
          some b := hb
        rw [htl.1 "rating" (by decide), ← Option.some.inj hb', Record.get?_set_self]
      | vFloat p =>
        change (match pyFloatFn (vFloat p) with
          | some q => some ((mergeFields movie detail).set "rating" (vFloat q))
          | none => none) = some b at hb
        rw [hpf] at hb
        have hb' : some ((mergeFields movie detail).set "rating" (vFloat q)) =
          some b := hb
        rw [htl.1 "rating" (by decide), ← Option.some.inj hb', Record.get?_set_self]
      | vNone =>
        change (match pyFloatFn vNone with
          | some q => some ((mergeFields movie detail).set "rating" (vFloat q))
          | none => none) = some b at hb
        rw [hpf] at hb
        have hb' : some ((mergeFields movie detail).set "rating" (vFloat q)) =
          some b := hb
        rw [htl.1 "rating" (by decide), ← Option.some.inj hb', Record.get?_set_self]
      | vList l =>
        change (match pyFloatFn (vList l) with
          | some q => some ((mergeFields movie detail).set "rating" (vFloat q))
          | none => none) = some b at hb
        rw [hpf] at hb
        have hb' : some ((mergeFields movie detail).set "rating" (vFloat q)) =
          some b := hb
        rw [htl.1 "rating" (by decide), ← Option.some.inj hb', Record.get?_set_self]
      | vDict dd =>
        change (match pyFloatFn (vDict dd) with
          | some q => some ((mergeFields movie detail).set "rating" (vFloat q))
          | none => none) = some b at hb
        rw [hpf] at hb
        have hb' : some ((mergeFields movie detail).set "rating" (vFloat q)) =
          some b := hb
        rw [htl.1 "rating" (by decide), ← Option.some.inj hb', Record.get?_set_self]
    · exact htl.2 cv hcv htc

/-- Witness for C6: a falsy detail `poster` keeps the base's value, a
truthy `runtime` overwrites, the string average `"8.5"` becomes the
float rating, and the count overwrites `total_ratings`. -/
theorem claim_C6_witness :
    Record.get? [("title", vStr "T"), ("poster", vStr "p0"),
      ("rating", vFloat (canonFloat 85 1)), ("runtime", vStr "120m"),
      ("total_ratings", vInt 100)] "poster" = some (vStr "p0") ∧
    Record.get? [("title", vStr "T"), ("poster", vStr "p0"),
      ("rating", vFloat (canonFloat 85 1)), ("runtime", vStr "120m"),
      ("total_ratings", vInt 100)] "runtime" = some (vStr "120m") ∧
    Record.get? [("title", vStr "T"), ("poster", vStr "p0"),
      ("rating", vFloat (canonFloat 85 1)), ("runtime", vStr "120m"),
      ("total_ratings", vInt 100)] "rating" = some (vFloat (canonFloat 85 1)) ∧
    Record.get? [("title", vStr "T"), ("poster", vStr "p0"),
      ("rating", vFloat (canonFloat 85 1)), ("runtime", vStr "120m"),
      ("total_ratings", vInt 100)] "total_ratings" = some (vInt 100) := by
  have h := claim_C6_merge
    [("title", vStr "T"), ("poster", vStr "p0"), ("rating", vFloat pfZero)]
    [("poster", vStr ""), ("runtime", vStr "120m"),
     ("rating_detail", vDict [("average", vStr "8.5"), ("total_ratings", vInt 100)])]
    [("title", vStr "T"), ("poster", vStr "p0"),
     ("rating", vFloat (canonFloat 85 1)), ("runtime", vStr "120m"),
     ("total_ratings", vInt 100)]
    (by rfl) (by rfl)
  refine ⟨(h.1 "poster" (by decide)).trans (by rfl),
    (h.1 "runtime" (by decide)).trans (by rfl), ?_, ?_⟩
  · exact ((h.2 [("average", vStr "8.5"), ("total_ratings", vInt 100)]
      (by rfl) (by rfl)).1 "8.5" (by rfl) (by rfl)).1 (canonFloat 85 1) (by rfl)
  · exact (h.2 [("average", vStr "8.5"), ("total_ratings", vInt 100)]
      (by rfl) (by rfl)).2.2 (vInt 100) (by rfl) (by rfl)

/-- C6 counterexample: a truthy non-numeric `average` (a nonempty
list) does NOT fall back to the base's prior rating — `float()` raises
a `TypeError` outside the `try`, so the merge raises. -/
theorem claim_C6_counterexample :
    mergeDetail [("rating", vFloat pfZero)]
      [("rating_detail", vDict [("average", vList [vInt 1])])] = none := by rfl

end Spider
